import Mathlib

/-!
A verification development for the k8s-exposer repository.

The Go data model (pkg/types), the edge service registry
(internal/server/registry.go), the port listener (internal/server),
the wire protocol (internal/protocol/messages.go) and the cloud
firewall reconciliation (internal/automation/firewall/client.go) are
shallowly embedded as executable Lean definitions, and the main
behavioural properties are proved about them.

Modelling conventions:
- Go `int32` port numbers become `Int` (the values involved stay far
  from the 32-bit bounds; where Go narrows with `uint32(...)` the
  reduction modulo 2^32 is written out explicitly).
- Go maps become association lists; insertion replaces any previous
  binding, deletion removes it.  Map iteration order in Go is
  unspecified, so no proved statement depends on the list order.
- The byte stream of the wire protocol is a `List Nat` of byte
  values; the JSON text layer (Go `encoding/json`) is modelled by a
  concrete printer and a matching recursive-descent decoder over the
  characters of the payload.
-/

namespace KExp

/-! ## Association-list maps (model of Go maps) -/

/-- Lookup in an association list (model of Go map indexing). -/
def alookup {α β : Type} [DecidableEq α] (k : α) : List (α × β) → Option β
  | [] => none
  | (k', v) :: rest => if k' = k then some v else alookup k rest

/-- Remove a key (model of Go `delete`). -/
def aerase {α β : Type} [DecidableEq α] (k : α) : List (α × β) → List (α × β)
  | [] => []
  | (a, b) :: rest => if a = k then aerase k rest else (a, b) :: aerase k rest

/-- Insert or replace a binding (model of Go map assignment). -/
def ainsert {α β : Type} [DecidableEq α] (k : α) (v : β) (l : List (α × β)) : List (α × β) :=
  (k, v) :: aerase k l

theorem alookup_aerase {α β : Type} [DecidableEq α] (k : α) (l : List (α × β)) :
    alookup k (aerase k l) = none := by
  induction l with
  | nil => simp [aerase, alookup]
  | cons p rest ih =>
    obtain ⟨a, b⟩ := p
    by_cases ha : a = k
    · simpa [aerase, ha] using ih
    · simpa [aerase, ha, alookup] using ih

theorem alookup_aerase_ne {α β : Type} [DecidableEq α] (k k' : α) (l : List (α × β))
    (h : k ≠ k') : alookup k' (aerase k l) = alookup k' l := by
  induction l with
  | nil => simp [aerase]
  | cons p rest ih =>
    obtain ⟨a, b⟩ := p
    by_cases ha : a = k
    · subst ha
      simpa [aerase, alookup, if_neg h] using ih
    · simp only [aerase, if_neg ha, alookup]
      by_cases ha' : a = k'
      · simp [ha']
      · simpa [if_neg ha'] using ih

theorem alookup_ainsert {α β : Type} [DecidableEq α] (k : α) (v : β) (l : List (α × β)) :
    alookup k (ainsert k v l) = some v := by
  simp [ainsert, alookup]

theorem alookup_ainsert_ne {α β : Type} [DecidableEq α] (k k' : α) (v : β)
    (l : List (α × β)) (h : k ≠ k') :
    alookup k' (ainsert k v l) = alookup k' l := by
  simp only [ainsert, alookup, if_neg h]
  exact alookup_aerase_ne k k' l h

/-! ## Data model (pkg/types) -/

/-- `PortMapping` from pkg/types: a port and protocol to expose.
Go `int32` fields are modelled as `Int`. -/
structure PortMapping where
  port : Int
  targetPort : Int
  protocol : String
deriving DecidableEq

/-- `ExposedService` from pkg/types.  The Go field `Namespace` is
spelled `nspace` because `namespace` is a Lean keyword. -/
structure ExposedService where
  name : String
  nspace : String
  subdomain : String
  ports : List PortMapping
  targetIP : String
  nodeIP : String
deriving DecidableEq

/-- `Message` from pkg/types; `MessageType` is a string. -/
structure Message where
  type : String
  services : List ExposedService
deriving DecidableEq

def MessageTypeServiceUpdate : String := "service_update"
def MessageTypeServiceDelete : String := "service_delete"
def MessageTypeHeartbeat : String := "heartbeat"

/-- `(*PortMapping).Validate`: port in 1..65535 and a known protocol.
Note that `TargetPort` is not inspected. -/
def PortMapping.Validate (p : PortMapping) : Bool :=
  if p.port < 1 || p.port > 65535 then false
  else if p.protocol ≠ "tcp" && p.protocol ≠ "udp" && p.protocol ≠ "tcp+udp" then false
  else true

def isSubChar (c : Char) : Bool :=
  ('a' ≤ c && c ≤ 'z') || ('0' ≤ c && c ≤ '9')

def isSubMid (c : Char) : Bool :=
  isSubChar c || c = '-'

/-- Tail of the DNS-label regex: up to `fuel` characters from
`[a-z0-9-]` followed by one final character from `[a-z0-9]`. -/
def subTail : Nat → List Char → Bool
  | _, [] => false
  | _, [c] => isSubChar c
  | 0, _ :: _ :: _ => false
  | n + 1, c :: rest => isSubMid c && subTail n rest

/-- `ValidateSubdomain`: the Go code matches the anchored regex
`[a-z0-9]([a-z0-9-]\x7b0,61\x7d[a-z0-9])?` over the whole string;
this is that regex written as a recursive matcher. -/
def ValidateSubdomain (s : String) : Bool :=
  match s.data with
  | [] => false
  | [c] => isSubChar c
  | c :: rest => isSubChar c && subTail 61 rest

/-- `(*ExposedService).Validate`, in source order. -/
def ExposedService.Validate (s : ExposedService) : Bool :=
  if s.name = "" then false
  else if s.nspace = "" then false
  else if !(ValidateSubdomain s.subdomain) then false
  else if s.ports.isEmpty then false
  else if !(s.ports.all PortMapping.Validate) then false
  else if s.targetIP = "" then false
  else true

/-- `(*Message).Validate`: known type; services are checked only for
update/delete messages. -/
def Message.Validate (m : Message) : Bool :=
  if m.type ≠ MessageTypeServiceUpdate && m.type ≠ MessageTypeServiceDelete &&
      m.type ≠ MessageTypeHeartbeat then false
  else if m.type = MessageTypeServiceUpdate || m.type = MessageTypeServiceDelete then
    m.services.all ExposedService.Validate
  else true

/-! ## Service registry (internal/server/registry.go)

The registry's mutex only serializes access; every claim is about the
state reached after whole operations, so the lock is not modelled.
`listener.Start()` is modelled as always succeeding (the premise of
claim C1); `Start`/`Stop` calls are recorded as an event trace. -/

/-- Key of `listeners` / `allocatedPorts`.  Go builds the string
`fmt.Sprintf("%d:%s", port, protocol)`, which is injective in the
pair, so the pair itself is the model. -/
abbrev PortKey := Int × String

def portKey (port : Int) (protocol : String) : PortKey := (port, protocol)

/-- A running listener (socket handles and goroutines are not part of
any claim; the identifying data is). -/
structure PortListener where
  port : Int
  protocol : String
  target : ExposedService
deriving DecidableEq

/-- Registry state: the three maps plus the configured port range. -/
structure ServiceRegistry where
  services : List (String × ExposedService)
  listeners : List (PortKey × PortListener)
  allocatedPorts : List PortKey
  portRangeStart : Int
  portRangeEnd : Int
deriving DecidableEq

/-- `NewServiceRegistry`: fresh state. -/
def NewServiceRegistry (s e : Int) : ServiceRegistry :=
  { services := [], listeners := [], allocatedPorts := [],
    portRangeStart := s, portRangeEnd := e }

/-- Observable listener lifecycle events. -/
inductive Ev where
  | start (k : PortKey)
  | stop (k : PortKey)
deriving DecidableEq

/-- `isPortAvailableLocked`: the port/protocol pair is not allocated. -/
def isPortAvailableLocked (r : ServiceRegistry) (port : Int) (protocol : String) : Bool :=
  !(decide (portKey port protocol ∈ r.allocatedPorts))

/-- The candidate ports `portRangeStart .. portRangeEnd` in ascending
order (empty when the range is empty). -/
def rangeList (s e : Int) : List Int :=
  (List.range (e + 1 - s).toNat).map (fun i : Nat => s + (i : Int))

/-- `allocatePortLocked`: take the requested port if free, else the
first free port of the range in ascending order, else fail leaving
the allocation set unchanged. -/
def allocatePortLocked (r : ServiceRegistry) (port : Int) (protocol : String) :
    ServiceRegistry × Option Int :=
  if isPortAvailableLocked r port protocol then
    ({ r with allocatedPorts := portKey port protocol :: r.allocatedPorts }, some port)
  else
    match (rangeList r.portRangeStart r.portRangeEnd).find?
        (fun p => isPortAvailableLocked r p protocol) with
    | some p =>
      ({ r with allocatedPorts := portKey p protocol :: r.allocatedPorts }, some p)
    | none => (r, none)

def keyErase (k : PortKey) (l : List PortKey) : List PortKey :=
  l.filter (fun k' => decide (k' ≠ k))

/-- `deallocatePortLocked`. -/
def deallocatePortLocked (r : ServiceRegistry) (port : Int) (protocol : String) :
    ServiceRegistry :=
  { r with allocatedPorts := keyErase (portKey port protocol) r.allocatedPorts }

/-- The per-mapping loop of `addServiceLocked`: allocate, start the
listener (always succeeds in this model), register it; on allocation
failure log and continue with the remaining mappings. -/
def addPorts (svc : ExposedService) : List PortMapping → ServiceRegistry →
    ServiceRegistry × List Ev
  | [], r => (r, [])
  | pm :: rest, r =>
    match allocatePortLocked r pm.port pm.protocol with
    | (_, none) => addPorts svc rest r
    | (r', some p) =>
      let listener : PortListener := { port := p, protocol := pm.protocol, target := svc }
      let r'' := { r' with
        listeners := ainsert (portKey p pm.protocol) listener r'.listeners }
      let res := addPorts svc rest r''
      (res.1, Ev.start (portKey p pm.protocol) :: res.2)

/-- `addServiceLocked`: record the service, then start one listener
per mapping. -/
def addServiceLocked (r : ServiceRegistry) (svc : ExposedService) :
    ServiceRegistry × List Ev :=
  addPorts svc svc.ports { r with services := ainsert svc.subdomain svc r.services }

/-- The per-mapping loop of `removeServiceLocked`: for each mapping's
requested `(port, protocol)` key, if a listener is registered under
that key, stop it, drop it and deallocate that key. -/
def removePorts : List PortMapping → ServiceRegistry → ServiceRegistry × List Ev
  | [], r => (r, [])
  | pm :: rest, r =>
    match alookup (portKey pm.port pm.protocol) r.listeners with
    | some _ =>
      let r' := deallocatePortLocked
        { r with listeners := aerase (portKey pm.port pm.protocol) r.listeners }
        pm.port pm.protocol
      let res := removePorts rest r'
      (res.1, Ev.stop (portKey pm.port pm.protocol) :: res.2)
    | none => removePorts rest r

/-- `removeServiceLocked`: no-op when the subdomain is absent. -/
def removeServiceLocked (r : ServiceRegistry) (subdomain : String) :
    ServiceRegistry × List Ev :=
  match alookup subdomain r.services with
  | none => (r, [])
  | some svc =>
    let res := removePorts svc.ports r
    ({ res.1 with services := aerase subdomain res.1.services }, res.2)

/-- `RemoveService` (public): remove under the lock, always return a
nil error. -/
def RemoveService (r : ServiceRegistry) (subdomain : String) :
    (ServiceRegistry × List Ev) × Option String :=
  (removeServiceLocked r subdomain, none)

/-- `servicesEqual` on the ordered port lists (compared under equal
lengths, by port and protocol only). -/
def portsPairEqual : List PortMapping → List PortMapping → Bool
  | [], [] => true
  | p :: ps, q :: qs => (p.port = q.port && p.protocol = q.protocol) && portsPairEqual ps qs
  | _, _ => false

/-- `servicesEqual`: structural comparison used by `Update`. -/
def servicesEqual (a b : ExposedService) : Bool :=
  if a.name ≠ b.name || a.nspace ≠ b.nspace || a.subdomain ≠ b.subdomain ||
      a.targetIP ≠ b.targetIP then false
  else if a.ports.length ≠ b.ports.length then false
  else portsPairEqual a.ports b.ports

/-- The map of desired services built at the top of `Update`;
Go map assignment overwrites, so a later duplicate subdomain
replaces an earlier one. -/
def buildMap (services : List ExposedService) : List (String × ExposedService) :=
  services.foldl (fun m svc => ainsert svc.subdomain svc m) []

/-- First phase of `Update`: walk the registered services; remove the
ones absent from the desired map, and tear down the ones whose
configuration changed. -/
def updateRemovePhase : List (String × ExposedService) →
    List (String × ExposedService) → ServiceRegistry → ServiceRegistry × List Ev
  | [], _, r => (r, [])
  | (subdomain, oldSvc) :: rest, nm, r =>
    match alookup subdomain nm with
    | none =>
      let res := removeServiceLocked r subdomain
      let res' := updateRemovePhase rest nm res.1
      (res'.1, res.2 ++ res'.2)
    | some newSvc =>
      if servicesEqual oldSvc newSvc then updateRemovePhase rest nm r
      else
        let res := removeServiceLocked r subdomain
        let res' := updateRemovePhase rest nm res.1
        (res'.1, res.2 ++ res'.2)

/-- Second phase of `Update`: add every desired service whose
subdomain is not currently registered. -/
def updateAddPhase : List (String × ExposedService) → ServiceRegistry →
    ServiceRegistry × List Ev
  | [], r => (r, [])
  | (subdomain, svc) :: rest, r =>
    match alookup subdomain r.services with
    | some _ => updateAddPhase rest r
    | none =>
      let res := addServiceLocked r svc
      let res' := updateAddPhase rest res.1
      (res'.1, res.2 ++ res'.2)

/-- `Update`: apply a full desired state. -/
def Update (r : ServiceRegistry) (services : List ExposedService) :
    ServiceRegistry × List Ev :=
  let nm := buildMap services
  let res := updateRemovePhase r.services nm r
  let res' := updateAddPhase nm res.1
  (res'.1, res.2 ++ res'.2)

/-- Public registry operations for claim C1's operation sequences. -/
inductive RegOp where
  | update (services : List ExposedService)
  | removeService (subdomain : String)

def applyOp (r : ServiceRegistry) : RegOp → ServiceRegistry
  | .update services => (Update r services).1
  | .removeService subdomain => (RemoveService r subdomain).1.1

def applyOps (ops : List RegOp) (r : ServiceRegistry) : ServiceRegistry :=
  ops.foldl applyOp r

theorem addPorts_nil (svc : ExposedService) (r : ServiceRegistry) :
    addPorts svc [] r = (r, []) := rfl

theorem addPorts_cons (svc : ExposedService) (pm : PortMapping)
    (rest : List PortMapping) (r : ServiceRegistry) :
    addPorts svc (pm :: rest) r =
      match allocatePortLocked r pm.port pm.protocol with
      | (_, none) => addPorts svc rest r
      | (r', some p) =>
        let listener : PortListener := { port := p, protocol := pm.protocol, target := svc }
        let r'' := { r' with
          listeners := ainsert (portKey p pm.protocol) listener r'.listeners }
        let res := addPorts svc rest r''
        (res.1, Ev.start (portKey p pm.protocol) :: res.2) := rfl

theorem removePorts_nil (r : ServiceRegistry) : removePorts [] r = (r, []) := rfl

theorem removePorts_cons (pm : PortMapping) (rest : List PortMapping)
    (r : ServiceRegistry) :
    removePorts (pm :: rest) r =
      match alookup (portKey pm.port pm.protocol) r.listeners with
      | some _ =>
        let r' := deallocatePortLocked
          { r with listeners := aerase (portKey pm.port pm.protocol) r.listeners }
          pm.port pm.protocol
        let res := removePorts rest r'
        (res.1, Ev.stop (portKey pm.port pm.protocol) :: res.2)
      | none => removePorts rest r := rfl

theorem updateRemovePhase_nil (nm : List (String × ExposedService))
    (r : ServiceRegistry) : updateRemovePhase [] nm r = (r, []) := rfl

theorem updateRemovePhase_cons (subdomain : String) (oldSvc : ExposedService)
    (rest : List (String × ExposedService)) (nm : List (String × ExposedService))
    (r : ServiceRegistry) :
    updateRemovePhase ((subdomain, oldSvc) :: rest) nm r =
      match alookup subdomain nm with
      | none =>
        let res := removeServiceLocked r subdomain
        let res' := updateRemovePhase rest nm res.1
        (res'.1, res.2 ++ res'.2)
      | some newSvc =>
        if servicesEqual oldSvc newSvc then updateRemovePhase rest nm r
        else
          let res := removeServiceLocked r subdomain
          let res' := updateRemovePhase rest nm res.1
          (res'.1, res.2 ++ res'.2) := rfl

theorem updateAddPhase_nil (r : ServiceRegistry) : updateAddPhase [] r = (r, []) := rfl

theorem updateAddPhase_cons (subdomain : String) (svc : ExposedService)
    (rest : List (String × ExposedService)) (r : ServiceRegistry) :
    updateAddPhase ((subdomain, svc) :: rest) r =
      match alookup subdomain r.services with
      | some _ => updateAddPhase rest r
      | none =>
        let res := addServiceLocked r svc
        let res' := updateAddPhase rest res.1
        (res'.1, res.2 ++ res'.2) := rfl

/-! ## Wire protocol (internal/protocol/messages.go)

The JSON text layer (Go `encoding/json`) is modelled concretely: the
printer emits the fields in struct order with their JSON tags,
omitting `services` when the list is empty (`omitempty`), and quoting
strings with backslash escapes for the quote and backslash
characters (Go additionally escapes control and HTML characters; net
of escape/unescape both coders are the identity on the string, which
is what the properties below depend on).  The decoder accepts the
encoder's output, modelling the typed `json.Unmarshal` on it, and
rejects empty input the way `json.Unmarshal` does.  Bytes are `Nat`
values; characters are mapped to byte values by `Char.toNat`. -/

def jsonEscChar (c : Char) : List Char :=
  if c = '"' || c = '\\' then ['\\', c] else [c]

def jsonEscape : List Char → List Char
  | [] => []
  | c :: rest => jsonEscChar c ++ jsonEscape rest

def printJString (s : String) : List Char :=
  '"' :: (jsonEscape s.data ++ ['"'])

def digitChar (d : Nat) : Char := Char.ofNat (48 + d)

/-- Little-endian decimal digits, fuel-based so that it reduces in the
kernel (the fuel is the number itself). -/
def natDigits : Nat → Nat → List Nat
  | 0, _ => []
  | fuel + 1, n => if n = 0 then [] else n % 10 :: natDigits fuel (n / 10)

def printNat (n : Nat) : List Char :=
  if n = 0 then ['0'] else ((natDigits n n).reverse).map digitChar

def printJInt (i : Int) : List Char :=
  if i < 0 then '-' :: printNat i.natAbs else printNat i.toNat

/-- `"key":` -/
def keyToken (k : String) : List Char := printJString k ++ [':']

/-- Comma-separated list body. -/
def printListSep {α : Type} (f : α → List Char) : List α → List Char
  | [] => []
  | [x] => f x
  | x :: rest => f x ++ ',' :: printListSep f rest

def printArr {α : Type} (f : α → List Char) (xs : List α) : List Char :=
  '[' :: (printListSep f xs ++ [']'])

def printPortMapping (p : PortMapping) : List Char :=
  ('\x7b' :: keyToken "port") ++
    (printJInt p.port ++
      ((',' :: keyToken "target_port") ++
        (printJInt p.targetPort ++
          ((',' :: keyToken "protocol") ++
            (printJString p.protocol ++ ['\x7d'])))))

def printService (s : ExposedService) : List Char :=
  ('\x7b' :: keyToken "name") ++
    (printJString s.name ++
      ((',' :: keyToken "namespace") ++
        (printJString s.nspace ++
          ((',' :: keyToken "subdomain") ++
            (printJString s.subdomain ++
              ((',' :: keyToken "ports") ++
                (printArr printPortMapping s.ports ++
                  ((',' :: keyToken "target_ip") ++
                    (printJString s.targetIP ++
                      ((',' :: keyToken "node_ip") ++
                        (printJString s.nodeIP ++ ['\x7d'])))))))))))

/-- JSON encoding of a `Message`; `services` is omitted when empty. -/
def printMessage (m : Message) : List Char :=
  ('\x7b' :: keyToken "type") ++
    (printJString m.type ++
      (if m.services.isEmpty then ['\x7d']
       else (',' :: keyToken "services") ++
         (printArr printService m.services ++ ['\x7d'])))

/-- Consume an expected literal token. -/
def expectTok : List Char → List Char → Option (List Char)
  | [], cs => some cs
  | _ :: _, [] => none
  | p :: ps, c :: cs => if c = p then expectTok ps cs else none

def parseJStringBody : List Char → Option (List Char × List Char)
  | [] => none
  | c :: rest =>
    if c = '"' then some ([], rest)
    else if c = '\\' then
      match rest with
      | [] => none
      | c2 :: rest2 => (parseJStringBody rest2).map (fun r => (c2 :: r.1, r.2))
    else (parseJStringBody rest).map (fun r => (c :: r.1, r.2))

def parseJString : List Char → Option (String × List Char)
  | [] => none
  | c :: rest =>
    if c = '"' then (parseJStringBody rest).map (fun r => (String.mk r.1, r.2))
    else none

def isDigitCh (c : Char) : Bool := '0' ≤ c && c ≤ '9'

def digitVal (c : Char) : Nat := c.toNat - 48

def parseDigits : List Char → Nat → Nat × List Char
  | [], acc => (acc, [])
  | c :: rest, acc =>
    if isDigitCh c then parseDigits rest (acc * 10 + digitVal c) else (acc, c :: rest)

def parseNat : List Char → Option (Nat × List Char)
  | [] => none
  | c :: rest => if isDigitCh c then some (parseDigits rest (digitVal c)) else none

def parseJInt (cs : List Char) : Option (Int × List Char) :=
  match cs with
  | [] => none
  | c :: rest =>
    if c = '-' then (parseNat rest).map (fun r => (-(r.1 : Int), r.2))
    else (parseNat (c :: rest)).map (fun r => ((r.1 : Int), r.2))

def parsePortMapping (cs : List Char) : Option (PortMapping × List Char) :=
  match expectTok ('\x7b' :: keyToken "port") cs with
  | none => none
  | some cs1 =>
    match parseJInt cs1 with
    | none => none
    | some (port, cs2) =>
      match expectTok (',' :: keyToken "target_port") cs2 with
      | none => none
      | some cs3 =>
        match parseJInt cs3 with
        | none => none
        | some (targetPort, cs4) =>
          match expectTok (',' :: keyToken "protocol") cs4 with
          | none => none
          | some cs5 =>
            match parseJString cs5 with
            | none => none
            | some (protocol, cs6) =>
              match cs6 with
              | [] => none
              | c :: rest =>
                if c = '\x7d' then some (⟨port, targetPort, protocol⟩, rest)
                else none

def parsePortsItems : Nat → List Char → Option (List PortMapping × List Char)
  | 0, _ => none
  | fuel + 1, cs =>
    match parsePortMapping cs with
    | none => none
    | some (p, rest) =>
      match rest with
      | [] => none
      | c :: rest' =>
        if c = ']' then some ([p], rest')
        else if c = ',' then (parsePortsItems fuel rest').map (fun r => (p :: r.1, r.2))
        else none

def parsePortsArr : List Char → Option (List PortMapping × List Char)
  | [] => none
  | c :: rest =>
    if c = '[' then
      match rest with
      | [] => none
      | c2 :: rest2 =>
        if c2 = ']' then some ([], rest2)
        else parsePortsItems (c2 :: rest2).length (c2 :: rest2)
    else none

def parseService (cs : List Char) : Option (ExposedService × List Char) :=
  match expectTok ('\x7b' :: keyToken "name") cs with
  | none => none
  | some cs1 =>
    match parseJString cs1 with
    | none => none
    | some (name, cs2) =>
      match expectTok (',' :: keyToken "namespace") cs2 with
      | none => none
      | some cs3 =>
        match parseJString cs3 with
        | none => none
        | some (nspace, cs4) =>
          match expectTok (',' :: keyToken "subdomain") cs4 with
          | none => none
          | some cs5 =>
            match parseJString cs5 with
            | none => none
            | some (subdomain, cs6) =>
              match expectTok (',' :: keyToken "ports") cs6 with
              | none => none
              | some cs7 =>
                match parsePortsArr cs7 with
                | none => none
                | some (ports, cs8) =>
                  match expectTok (',' :: keyToken "target_ip") cs8 with
                  | none => none
                  | some cs9 =>
                    match parseJString cs9 with
                    | none => none
                    | some (targetIP, cs10) =>
                      match expectTok (',' :: keyToken "node_ip") cs10 with
                      | none => none
                      | some cs11 =>
                        match parseJString cs11 with
                        | none => none
                        | some (nodeIP, cs12) =>
                          match cs12 with
                          | [] => none
                          | c :: rest =>
                            if c = '\x7d' then
                              some (⟨name, nspace, subdomain, ports, targetIP, nodeIP⟩, rest)
                            else none

def parseServicesItems : Nat → List Char → Option (List ExposedService × List Char)
  | 0, _ => none
  | fuel + 1, cs =>
    match parseService cs with
    | none => none
    | some (s, rest) =>
      match rest with
      | [] => none
      | c :: rest' =>
        if c = ']' then some ([s], rest')
        else if c = ',' then (parseServicesItems fuel rest').map (fun r => (s :: r.1, r.2))
        else none

def parseServicesArr : List Char → Option (List ExposedService × List Char)
  | [] => none
  | c :: rest =>
    if c = '[' then
      match rest with
      | [] => none
      | c2 :: rest2 =>
        if c2 = ']' then some ([], rest2)
        else parseServicesItems (c2 :: rest2).length (c2 :: rest2)
    else none

def parseMessageVal (cs : List Char) : Option (Message × List Char) :=
  match expectTok ('\x7b' :: keyToken "type") cs with
  | none => none
  | some cs1 =>
    match parseJString cs1 with
    | none => none
    | some (ty, cs2) =>
      match cs2 with
      | [] => none
      | c :: cs3 =>
        if c = '\x7d' then some (⟨ty, []⟩, cs3)
        else if c = ',' then
          match expectTok (keyToken "services") cs3 with
          | none => none
          | some cs4 =>
            match parseServicesArr cs4 with
            | none => none
            | some (svcs, cs5) =>
              match cs5 with
              | [] => none
              | c2 :: cs6 =>
                if c2 = '\x7d' then some (⟨ty, svcs⟩, cs6)
                else none
        else none

/-- `json.Unmarshal` into a `Message`: the whole payload must be one
JSON value (in particular, empty input is an error). -/
def jsonUnmarshalMessage (payload : List Char) : Option Message :=
  match parseMessageVal payload with
  | some (m, []) => some m
  | _ => none

/-- 10 MiB frame limit. -/
def MaxMessageSize : Nat := 10 * 1024 * 1024

/-- 4-byte big-endian length prefix. -/
def be32 (n : Nat) : List Nat :=
  [n / 2 ^ 24 % 256, n / 2 ^ 16 % 256, n / 2 ^ 8 % 256, n % 256]

def be32val : List Nat → Nat
  | [a, b, c, d] => ((a * 256 + b) * 256 + c) * 256 + d
  | _ => 0

inductive SendError where
  | invalidMessage
deriving DecidableEq

/-- `SendMessage`: validate, marshal, emit length prefix (narrowed to
`uint32`) followed by the payload bytes. -/
def SendMessage (msg : Message) : Except SendError (List Nat) :=
  if !msg.Validate then .error .invalidMessage
  else
    let data := (printMessage msg).map Char.toNat
    .ok (be32 (data.length % 2 ^ 32) ++ data)

inductive RecvError where
  | readLength
  | tooLarge (n : Nat)
  | readPayload
  | unmarshal
  | invalidMessage
deriving DecidableEq

/-- `ReceiveMessage` over a byte stream; returns the result and the
unread remainder of the stream.  The declared-length check happens
before any payload byte is consumed. -/
def ReceiveMessage (input : List Nat) : Except RecvError Message × List Nat :=
  if input.length < 4 then (.error .readLength, input.drop 4)
  else
    let length := be32val (input.take 4)
    let rest := input.drop 4
    if length > MaxMessageSize then (.error (.tooLarge length), rest)
    else if rest.length < length then (.error .readPayload, rest.drop length)
    else
      match jsonUnmarshalMessage ((rest.take length).map Char.ofNat) with
      | none => (.error .unmarshal, rest.drop length)
      | some msg =>
        if msg.Validate then (.ok msg, rest.drop length)
        else (.error .invalidMessage, rest.drop length)

/-! ## Port listener target resolution (internal/server, PortListener) -/

/-- `(*PortListener).getTargetPort`: scan the target service's
mappings for the first one whose protocol equals the listener's
protocol or is `tcp+udp`; prefer its `TargetPort` when non-zero, else
its `Port`; with no matching mapping, fall back to the listener
port. -/
def getTargetPortPorts (listenerPort : Int) (protocol : String) :
    List PortMapping → Int
  | [] => listenerPort
  | pm :: rest =>
    if pm.protocol = protocol ∨ pm.protocol = "tcp+udp" then
      if pm.targetPort ≠ 0 then pm.targetPort else pm.port
    else getTargetPortPorts listenerPort protocol rest

def PortListener.getTargetPort (pl : PortListener) : Int :=
  getTargetPortPorts pl.port pl.protocol pl.target.ports

/-- The dial request handed to the forwarder. -/
structure ForwardReq where
  targetIP : String
  targetPort : Int
deriving DecidableEq

/-- `handleTCPConnection`: each accepted connection is forwarded to
the service's target address at the resolved target port. -/
def handleTCPConnection (pl : PortListener) : ForwardReq :=
  ⟨pl.target.targetIP, pl.getTargetPort⟩

/-- `receiveUDPPackets` resolves the same pair per datagram. -/
def forwardUDPPacket (pl : PortListener) : ForwardReq :=
  ⟨pl.target.targetIP, pl.getTargetPort⟩

/-! ## Cloud firewall reconciliation
(internal/automation/firewall/client.go) -/

structure FirewallRule where
  direction : String
  sourceIPs : List String
  protocol : String
  port : String
  description : String
deriving DecidableEq

def anyIPv4v6 : List String := ["0.0.0.0/0", "::/0"]

def sshRuleDefault : FirewallRule :=
  ⟨"in", anyIPv4v6, "tcp", "22", "SSH"⟩

def httpRule : FirewallRule :=
  ⟨"in", anyIPv4v6, "tcp", "80", "HTTP"⟩

def httpsRule : FirewallRule :=
  ⟨"in", anyIPv4v6, "tcp", "443", "HTTPS"⟩

def intDecString (p : Int) : String := String.mk (printJInt p)

/-- One managed rule per desired external port (`%d` formatting). -/
def managedPortRule (p : Int) : FirewallRule :=
  ⟨"in", anyIPv4v6, "tcp", intDecString p, "k8s-exposer"⟩

def isSSHRule (r : FirewallRule) : Bool :=
  r.port = "22" && r.protocol = "tcp"

/-- The replacement rule set computed by `EnsurePortsOpen`: keep the
current rules whose description is non-empty and not the sentinel,
re-add the first SSH rule found (or a default one), always add rules
for 80 and 443, and one managed rule per desired port. -/
def ensurePortsOpenRules (currentRules : List FirewallRule) (ports : List Int) :
    List FirewallRule :=
  ((currentRules.filter
      (fun r => r.description ≠ "" && r.description ≠ "k8s-exposer") ++
    (match currentRules.find? isSSHRule with
     | some r => [r]
     | none => [sshRuleDefault])) ++
   [httpRule, httpsRule]) ++ ports.map managedPortRule

/-- Calls made by `EnsurePortsOpen` to the firewall REST API in the
enabled case (token and firewall id present): one GET of the current
rules has already produced `currentRules`; the one observable
mutation is a single whole-set replacement. -/
inductive FwCall where
  | setRules (rules : List FirewallRule)
deriving DecidableEq

def EnsurePortsOpen (currentRules : List FirewallRule) (ports : List Int) :
    List FwCall :=
  [FwCall.setRules (ensurePortsOpenRules currentRules ports)]

end KExp

deriving instance DecidableEq for Except

namespace KExp

/-! ## Theorems -/

/-- C10: calling `RemoveService` with a subdomain that is not present
in the registry returns a nil error and leaves the services,
listeners and allocated-port maps exactly unchanged. -/
theorem c10_remove_absent_noop (r : ServiceRegistry) (sub : String)
    (h : alookup sub r.services = none) :
    RemoveService r sub = ((r, []), none) := by
  simp [RemoveService, removeServiceLocked, h]

theorem c10_witness :
    alookup "ghost" (NewServiceRegistry 30000 32767).services = none ∧
    RemoveService (NewServiceRegistry 30000 32767) "ghost" =
      ((NewServiceRegistry 30000 32767, []), none) :=
  ⟨rfl, c10_remove_absent_noop (NewServiceRegistry 30000 32767) "ghost" rfl⟩

/-- C7 as stated is false: `PortMapping.Validate` never inspects
`target_port`, so the mapping `(port 80, target_port 0, tcp)` passes
validation although its target port is outside 1..65535. -/
theorem c7_counterexample :
    PortMapping.Validate ⟨80, 0, "tcp"⟩ = true ∧
    ¬(1 ≤ (0 : Int) ∧ (0 : Int) ≤ 65535) ∧
    PortMapping.targetPort ⟨80, 0, "tcp"⟩ = 0 := by
  refine ⟨by decide, by decide, rfl⟩

/-- C7 amended: validation accepts a `PortMapping` exactly when its
external `port` is between 1 and 65535 and its protocol is one of
tcp, udp, tcp+udp (`target_port` is not checked); consequently every
validated `ExposedService` has all of its external ports in that
range. -/
theorem c7_validate_port_range :
    (∀ p : PortMapping, p.Validate = true ↔
      (1 ≤ p.port ∧ p.port ≤ 65535 ∧
        (p.protocol = "tcp" ∨ p.protocol = "udp" ∨ p.protocol = "tcp+udp"))) ∧
    (∀ s : ExposedService, s.Validate = true →
      ∀ pm ∈ s.ports, 1 ≤ pm.port ∧ pm.port ≤ 65535) := by
  have hall : ∀ s : ExposedService, s.Validate = true →
      s.ports.all PortMapping.Validate = true := by
    intro s h
    unfold ExposedService.Validate at h
    split_ifs at h with h1 h2 h3 h4 h5 h6 <;> simp_all
  have hpm : ∀ p : PortMapping, p.Validate = true ↔
      (1 ≤ p.port ∧ p.port ≤ 65535 ∧
        (p.protocol = "tcp" ∨ p.protocol = "udp" ∨ p.protocol = "tcp+udp")) := by
    rintro ⟨port, tp, proto⟩
    simp only [PortMapping.Validate]
    split_ifs with h1 h2
    · simp only [Bool.or_eq_true, decide_eq_true_eq] at h1
      simp only [false_iff, not_and]
      intro hp1 hp2
      omega
    · simp only [Bool.and_eq_true, decide_eq_true_eq] at h2
      simp only [false_iff, not_and]
      intro _ _ hc
      tauto
    · simp only [Bool.or_eq_true, decide_eq_true_eq, not_or] at h1
      simp only [Bool.and_eq_true, decide_eq_true_eq] at h2
      simp only [true_iff]
      refine ⟨by omega, by omega, by tauto⟩
  refine ⟨hpm, ?_⟩
  intro s h pm hmem
  have h5 := hall s h
  rw [List.all_eq_true] at h5
  have := (hpm pm).1 (by simpa using h5 pm hmem)
  exact ⟨this.1, this.2.1⟩

theorem c7_witness :
    (PortMapping.Validate ⟨80, 0, "tcp"⟩ = true ↔
      (1 ≤ (80 : Int) ∧ (80 : Int) ≤ 65535 ∧
        (("tcp" : String) = "tcp" ∨ ("tcp" : String) = "udp" ∨
          ("tcp" : String) = "tcp+udp"))) ∧
    (1 ≤ (80 : Int) ∧ (80 : Int) ≤ 65535) :=
  ⟨c7_validate_port_range.1 ⟨80, 0, "tcp"⟩,
    c7_validate_port_range.2 ⟨"a", "n", "web", [⟨80, 0, "tcp"⟩], "t", ""⟩ (by decide)
      ⟨80, 0, "tcp"⟩ (by decide)⟩

/-- Service used by the C9 counterexample: two TCP mappings with
distinct target ports. -/
def svcC9 : ExposedService :=
  ⟨"multi", "ns", "multi", [⟨100, 8080, "tcp"⟩, ⟨200, 9090, "tcp"⟩], "10.0.0.9", ""⟩

/-- C9 as stated is false: the listener created for the second TCP
mapping (port 200) forwards to the resolved port of the FIRST
protocol-matching mapping (8080), not to its own mapping's
`target_port` 9090. -/
theorem c9_counterexample :
    handleTCPConnection ⟨200, "tcp", svcC9⟩ = ⟨"10.0.0.9", 8080⟩ ∧
    (⟨"10.0.0.9", 8080⟩ : ForwardReq) ≠ ⟨"10.0.0.9", 9090⟩ ∧
    svcC9.ports = [⟨100, 8080, "tcp"⟩, ⟨200, 9090, "tcp"⟩] := by
  refine ⟨by decide, by decide, rfl⟩

/-- C9 amended: each accepted connection (or datagram) is forwarded
to the service's target address at the port resolved from the FIRST
mapping whose protocol equals the listener's protocol or is
`tcp+udp` — that mapping's `target_port` if non-zero, else its
`port` — and at the listener port when no mapping matches; listeners
of a service with several mappings of the same protocol therefore
all use the first matching mapping. -/
theorem getTargetPortPorts_find_some (lp : Int) (proto : String) (l : List PortMapping)
    (pm : PortMapping)
    (hfind : l.find? (fun q => decide (q.protocol = proto ∨ q.protocol = "tcp+udp")) = some pm) :
    getTargetPortPorts lp proto l = (if pm.targetPort ≠ 0 then pm.targetPort else pm.port) := by
  induction l with
  | nil => simp at hfind
  | cons q rest ih =>
    by_cases hq : q.protocol = proto ∨ q.protocol = "tcp+udp"
    · rw [List.find?_cons_of_pos _ (by simpa using hq)] at hfind
      obtain rfl : q = pm := by simpa using hfind
      simp only [getTargetPortPorts, if_pos hq]
    · rw [List.find?_cons_of_neg _ (by simpa using hq)] at hfind
      simp only [getTargetPortPorts, if_neg hq]
      exact ih hfind

theorem getTargetPortPorts_find_none (lp : Int) (proto : String) (l : List PortMapping)
    (hfind : l.find? (fun q => decide (q.protocol = proto ∨ q.protocol = "tcp+udp")) = none) :
    getTargetPortPorts lp proto l = lp := by
  induction l with
  | nil => rfl
  | cons q rest ih =>
    by_cases hq : q.protocol = proto ∨ q.protocol = "tcp+udp"
    · rw [List.find?_cons_of_pos _ (by simpa using hq)] at hfind
      exact absurd hfind (by simp)
    · rw [List.find?_cons_of_neg _ (by simpa using hq)] at hfind
      simp only [getTargetPortPorts, if_neg hq]
      exact ih hfind

theorem c9_target_resolution (pl : PortListener) :
    (∀ pm, pl.target.ports.find?
        (fun q => decide (q.protocol = pl.protocol ∨ q.protocol = "tcp+udp")) = some pm →
      pl.getTargetPort = (if pm.targetPort ≠ 0 then pm.targetPort else pm.port)) ∧
    (pl.target.ports.find?
        (fun q => decide (q.protocol = pl.protocol ∨ q.protocol = "tcp+udp")) = none →
      pl.getTargetPort = pl.port) ∧
    handleTCPConnection pl = ⟨pl.target.targetIP, pl.getTargetPort⟩ ∧
    forwardUDPPacket pl = ⟨pl.target.targetIP, pl.getTargetPort⟩ := by
  refine ⟨?_, ?_, rfl, rfl⟩
  · intro pm hfind
    exact getTargetPortPorts_find_some pl.port pl.protocol pl.target.ports pm hfind
  · intro hfind
    exact getTargetPortPorts_find_none pl.port pl.protocol pl.target.ports hfind

theorem c9_witness :
    PortListener.getTargetPort ⟨200, "tcp", svcC9⟩ = 8080 ∧
    PortListener.getTargetPort ⟨5555, "udp", svcC9⟩ = 5555 :=
  ⟨by
    have := (c9_target_resolution ⟨200, "tcp", svcC9⟩).1 ⟨100, 8080, "tcp"⟩ (by decide)
    simpa using this,
   by
    have := (c9_target_resolution ⟨5555, "udp", svcC9⟩).2.1 (by decide)
    simpa using this⟩

/-- Rule used by the C8 counterexample: empty description, not an SSH
rule. -/
def fwRuleC8 : FirewallRule := ⟨"in", [], "tcp", "8080", ""⟩

/-- C8 as stated is false: a fetched rule with an EMPTY description
(which is not the managed sentinel) is dropped from the replacement
set, because the code keeps only rules whose description is non-empty
and different from the sentinel. -/
theorem c8_counterexample :
    fwRuleC8.description ≠ "k8s-exposer" ∧
    fwRuleC8 ∉ ensurePortsOpenRules [fwRuleC8] [] := by
  refine ⟨by decide, by decide⟩

/-- C8 amended: the replacement rule set retains every fetched rule
whose description is NON-EMPTY and not the managed sentinel, contains
the first fetched SSH rule if one is present and a default SSH rule
otherwise, contains the HTTP and HTTPS rules (ports 80 and 443),
contains one managed rule per desired external port, and is pushed in
a single whole-set replacement call. -/
theorem c8_replacement_rules (current : List FirewallRule) (ports : List Int) :
    (∀ r ∈ current, r.description ≠ "" → r.description ≠ "k8s-exposer" →
      r ∈ ensurePortsOpenRules current ports) ∧
    (∀ r, current.find? isSSHRule = some r → r ∈ ensurePortsOpenRules current ports) ∧
    (current.find? isSSHRule = none →
      sshRuleDefault ∈ ensurePortsOpenRules current ports) ∧
    httpRule ∈ ensurePortsOpenRules current ports ∧
    httpsRule ∈ ensurePortsOpenRules current ports ∧
    (∀ p ∈ ports, managedPortRule p ∈ ensurePortsOpenRules current ports) ∧
    EnsurePortsOpen current ports =
      [FwCall.setRules (ensurePortsOpenRules current ports)] := by
  unfold ensurePortsOpenRules EnsurePortsOpen
  refine ⟨?_, ?_, ?_, ?_, ?_, ?_, rfl⟩
  · intro r hr h1 h2
    cases hfind : current.find? isSSHRule <;> simp [hfind] <;>
      exact Or.inl ⟨hr, h1, h2⟩
  · intro r hfind
    simp [hfind]
  · intro hfind
    simp [hfind]
  · cases hfind : current.find? isSSHRule <;> simp [hfind]
  · cases hfind : current.find? isSSHRule <;> simp [hfind]
  · intro p hp
    cases hfind : current.find? isSSHRule <;> simp [hfind, List.mem_map] <;>
      exact Or.inr (Or.inr (Or.inr (Or.inr ⟨p, hp, rfl⟩)))

theorem c8_witness :
    (⟨"in", ["1.2.3.4/32"], "tcp", "9999", "custom"⟩ : FirewallRule) ∈
      ensurePortsOpenRules [⟨"in", ["1.2.3.4/32"], "tcp", "9999", "custom"⟩] [31000] ∧
    sshRuleDefault ∈
      ensurePortsOpenRules [⟨"in", ["1.2.3.4/32"], "tcp", "9999", "custom"⟩] [31000] ∧
    managedPortRule 31000 ∈
      ensurePortsOpenRules [⟨"in", ["1.2.3.4/32"], "tcp", "9999", "custom"⟩] [31000] :=
  ⟨(c8_replacement_rules [⟨"in", ["1.2.3.4/32"], "tcp", "9999", "custom"⟩] [31000]).1
      ⟨"in", ["1.2.3.4/32"], "tcp", "9999", "custom"⟩ (by decide) (by decide) (by decide),
   (c8_replacement_rules [⟨"in", ["1.2.3.4/32"], "tcp", "9999", "custom"⟩] [31000]).2.2.1
      (by decide),
   (c8_replacement_rules [⟨"in", ["1.2.3.4/32"], "tcp", "9999", "custom"⟩] [31000]).2.2.2.2.2.1
      31000 (by decide)⟩

/-- Length of the 4-byte length prefix. -/
theorem be32_length (n : Nat) : (be32 n).length = 4 := rfl

theorem be32val_be32 (n : Nat) (h : n < 2 ^ 32) : be32val (be32 n) = n := by
  simp only [be32, be32val]
  omega

/-- C5: a frame with declared length 0 makes `ReceiveMessage` fail in
the JSON unmarshal step (the empty payload is not valid JSON), and a
frame whose declared length exceeds 10 MiB makes it fail right after
the 4 length bytes, consuming no payload byte from the stream. -/
theorem c5_frame_limits :
    (∀ rest : List Nat,
      ReceiveMessage (0 :: 0 :: 0 :: 0 :: rest) = (.error .unmarshal, rest)) ∧
    (∀ L rest, MaxMessageSize < L → L < 2 ^ 32 →
      ReceiveMessage (be32 L ++ rest) = (.error (.tooLarge L), rest)) := by
  constructor
  · intro rest
    unfold ReceiveMessage
    rw [if_neg (by simp)]
    simp only [List.take_succ_cons, List.take_zero, List.drop_succ_cons, List.drop_zero]
    have h0 : be32val [0, 0, 0, 0] = 0 := rfl
    rw [h0]
    rw [if_neg (by simp [MaxMessageSize])]
    rw [if_neg (by omega)]
    have hjson : jsonUnmarshalMessage ((rest.take 0).map Char.ofNat) = none := rfl
    rw [hjson]
    rfl
  · intro L rest hbig hlt
    unfold ReceiveMessage
    rw [if_neg (by simp [be32])]
    have ht : (be32 L ++ rest).take 4 = be32 L := by
      have := List.take_left (be32 L) rest
      simpa [be32_length] using this
    have hd : (be32 L ++ rest).drop 4 = rest := by
      have := List.drop_left (be32 L) rest
      simpa [be32_length] using this
    rw [ht, hd, be32val_be32 L hlt]
    rw [if_pos (by simpa [MaxMessageSize] using hbig)]

theorem c5_witness :
    MaxMessageSize < 10485761 ∧ 10485761 < 2 ^ 32 ∧
    ReceiveMessage (be32 10485761 ++ [7, 7]) =
      (.error (.tooLarge 10485761), [7, 7]) :=
  ⟨by decide, by decide, c5_frame_limits.2 10485761 [7, 7] (by decide) (by decide)⟩

theorem rangeList_pairwise (s e : Int) : (rangeList s e).Pairwise (· < ·) := by
  unfold rangeList
  rw [List.pairwise_map]
  exact (List.pairwise_lt_range _).imp
    (fun h => add_lt_add_left (Int.ofNat_lt.mpr h) s)

theorem find?_pairwise_first {f : Int → Bool} {l : List Int}
    (hs : l.Pairwise (· < ·)) {p : Int} (h : l.find? f = some p) :
    p ∈ l ∧ f p = true ∧ ∀ q ∈ l, q < p → f q = false := by
  induction l with
  | nil => simp at h
  | cons a t ih =>
    rw [List.pairwise_cons] at hs
    by_cases hf : f a = true
    · rw [List.find?_cons_of_pos _ hf] at h
      obtain rfl : a = p := by simpa using h
      refine ⟨List.mem_cons_self _ _, hf, ?_⟩
      intro q hq hlt
      rcases List.mem_cons.mp hq with rfl | hq'
      · omega
      · have haq := hs.1 q hq'
        exact absurd haq (by omega)
    · rw [List.find?_cons_of_neg _ hf] at h
      obtain ⟨hmem, hfp, hmin⟩ := ih hs.2 h
      refine ⟨List.mem_cons_of_mem _ hmem, hfp, ?_⟩
      intro q hq hlt
      rcases List.mem_cons.mp hq with rfl | hq'
      · exact Bool.not_eq_true _ ▸ (by simpa using hf)
      · exact hmin q hq' hlt

/-- C2: port allocation policy.  (1) A free requested port is
allocated and returned unchanged.  (2) When the requested port is
taken and the allocation succeeds, the returned port is the first
free port of that protocol in the ascending range, and it is
recorded.  (3) When the requested port is taken and no range port is
free, the allocation fails and the state is exactly unchanged.
(4) In `addServiceLocked`'s loop, a mapping whose allocation fails is
skipped while the remaining mappings are still attempted. -/
theorem c2_port_allocation (r : ServiceRegistry) (port : Int) (protocol : String) :
    (isPortAvailableLocked r port protocol = true →
      allocatePortLocked r port protocol =
        ({ r with allocatedPorts := portKey port protocol :: r.allocatedPorts },
          some port)) ∧
    (isPortAvailableLocked r port protocol = false →
      ∀ p, (allocatePortLocked r port protocol).2 = some p →
        (allocatePortLocked r port protocol).1 =
          { r with allocatedPorts := portKey p protocol :: r.allocatedPorts } ∧
        p ∈ rangeList r.portRangeStart r.portRangeEnd ∧
        isPortAvailableLocked r p protocol = true ∧
        ∀ q ∈ rangeList r.portRangeStart r.portRangeEnd, q < p →
          isPortAvailableLocked r q protocol = false) ∧
    (isPortAvailableLocked r port protocol = false →
      (∀ q ∈ rangeList r.portRangeStart r.portRangeEnd,
        isPortAvailableLocked r q protocol = false) →
      allocatePortLocked r port protocol = (r, none)) ∧
    (∀ svc pm rest, (allocatePortLocked r pm.port pm.protocol).2 = none →
      addPorts svc (pm :: rest) r = addPorts svc rest r) := by
  refine ⟨?_, ?_, ?_, ?_⟩
  · intro hfree
    unfold allocatePortLocked
    rw [if_pos hfree]
  · intro htaken p hsome
    unfold allocatePortLocked at hsome ⊢
    rw [if_neg (by simp [htaken])] at hsome ⊢
    cases hfind : (rangeList r.portRangeStart r.portRangeEnd).find?
        (fun q => isPortAvailableLocked r q protocol) with
    | none => rw [hfind] at hsome; simp at hsome
    | some p' =>
      rw [hfind] at hsome
      obtain rfl : p' = p := by simpa using hsome
      obtain ⟨hmem, hfp, hmin⟩ := find?_pairwise_first (rangeList_pairwise _ _) hfind
      exact ⟨rfl, hmem, hfp, fun q hq hlt => hmin q hq hlt⟩
  · intro htaken hnone
    unfold allocatePortLocked
    rw [if_neg (by simp [htaken])]
    rw [List.find?_eq_none.mpr (by intro q hq; simp [hnone q hq])]
  · intro svc pm rest hfail
    cases halloc : allocatePortLocked r pm.port pm.protocol with
    | mk r1 res =>
      rw [halloc] at hfail
      have hres : res = none := hfail
      subst hres
      rw [addPorts_cons, halloc]

/-- Registry state exercising the C2 branches: TCP 1 and 2 taken,
range = [2, 2]. -/
def rC2full : ServiceRegistry :=
  { services := [], listeners := [], allocatedPorts := [(1, "tcp"), (2, "tcp")],
    portRangeStart := 2, portRangeEnd := 2 }

/-- Registry state with TCP 1 taken and range port 2 free. -/
def rC2free : ServiceRegistry :=
  { services := [], listeners := [], allocatedPorts := [(1, "tcp")],
    portRangeStart := 2, portRangeEnd := 2 }

theorem c2_witness :
    allocatePortLocked rC2free 5 "tcp" =
      ({ rC2free with allocatedPorts := (5, "tcp") :: rC2free.allocatedPorts },
        some 5) ∧
    ((allocatePortLocked rC2free 1 "tcp").1 =
      { rC2free with allocatedPorts := (2, "tcp") :: rC2free.allocatedPorts } ∧
      (2 : Int) ∈ rangeList 2 2 ∧
      isPortAvailableLocked rC2free 2 "tcp" = true ∧
      ∀ q ∈ rangeList 2 2, q < 2 → isPortAvailableLocked rC2free q "tcp" = false) ∧
    allocatePortLocked rC2full 1 "tcp" = (rC2full, none) ∧
    addPorts svcC9 [⟨1, 0, "tcp"⟩, ⟨9, 0, "tcp"⟩] rC2full =
      addPorts svcC9 [⟨9, 0, "tcp"⟩] rC2full := by
  refine ⟨?_, ?_, ?_, ?_⟩
  · exact (c2_port_allocation rC2free 5 "tcp").1 (by decide)
  · have h := (c2_port_allocation rC2free 1 "tcp").2.1 (by decide) 2 (by decide)
    exact ⟨h.1, h.2.1, h.2.2.1, h.2.2.2⟩
  · exact (c2_port_allocation rC2full 1 "tcp").2.2.1 (by decide) (by decide)
  · exact (c2_port_allocation rC2full 0 "x").2.2.2 svcC9 ⟨1, 0, "tcp"⟩
      [⟨9, 0, "tcp"⟩] (by decide)

/-! ### C1: the allocated-ports / listeners equivalence -/

theorem mem_keyErase_self (k : PortKey) (l : List PortKey) : k ∉ keyErase k l := by
  simp [keyErase, List.mem_filter]

theorem mem_keyErase_ne (k k' : PortKey) (l : List PortKey) (h : k' ≠ k) :
    k' ∈ keyErase k l ↔ k' ∈ l := by
  simp [keyErase, List.mem_filter, h]

theorem allocatePortLocked_some (r : ServiceRegistry) (port : Int) (protocol : String)
    (r' : ServiceRegistry) (p : Int)
    (h : allocatePortLocked r port protocol = (r', some p)) :
    r' = { r with allocatedPorts := portKey p protocol :: r.allocatedPorts } ∧
    portKey p protocol ∉ r.allocatedPorts := by
  unfold allocatePortLocked at h
  by_cases hfree : isPortAvailableLocked r port protocol = true
  · rw [if_pos hfree] at h
    obtain ⟨h1, h2⟩ := Prod.mk.injEq _ _ _ _ ▸ h
    obtain rfl : port = p := by simpa using h2
    refine ⟨h1.symm ▸ rfl, ?_⟩
    simpa [isPortAvailableLocked] using hfree
  · rw [if_neg hfree] at h
    cases hfind : (rangeList r.portRangeStart r.portRangeEnd).find?
        (fun q => isPortAvailableLocked r q protocol) with
    | none => rw [hfind] at h; simp at h
    | some q =>
      rw [hfind] at h
      obtain ⟨h1, h2⟩ := Prod.mk.injEq _ _ _ _ ▸ h
      obtain rfl : q = p := by simpa using h2
      refine ⟨h1.symm ▸ rfl, ?_⟩
      have := List.find?_some hfind
      simpa [isPortAvailableLocked] using this

theorem allocatePortLocked_none (r : ServiceRegistry) (port : Int) (protocol : String)
    (r' : ServiceRegistry) (h : allocatePortLocked r port protocol = (r', none)) :
    r' = r := by
  unfold allocatePortLocked at h
  by_cases hfree : isPortAvailableLocked r port protocol = true
  · rw [if_pos hfree] at h
    simp at h
  · rw [if_neg hfree] at h
    cases hfind : (rangeList r.portRangeStart r.portRangeEnd).find?
        (fun q => isPortAvailableLocked r q protocol) with
    | none =>
      rw [hfind] at h
      exact (Prod.mk.injEq _ _ _ _ ▸ h).1.symm
    | some q => rw [hfind] at h; simp at h

/-- The C1 equivalence: a pair is allocated iff a listener is stored
under it. -/
def portsListenersSync (r : ServiceRegistry) : Prop :=
  ∀ k : PortKey, k ∈ r.allocatedPorts ↔ (alookup k r.listeners).isSome = true

theorem addPorts_sync (svc : ExposedService) (pms : List PortMapping) :
    ∀ r : ServiceRegistry, portsListenersSync r →
      portsListenersSync (addPorts svc pms r).1 := by
  induction pms with
  | nil => intro r h; simpa [addPorts_nil] using h
  | cons pm rest ih =>
    intro r hinv
    rw [addPorts_cons]
    cases halloc : allocatePortLocked r pm.port pm.protocol with
    | mk r1 res =>
      cases res with
      | none =>
        exact ih r hinv
      | some p =>
        obtain ⟨hr1, hfresh⟩ := allocatePortLocked_some r pm.port pm.protocol r1 p halloc
        subst hr1
        apply ih
        intro k
        by_cases hk : k = portKey p pm.protocol
        · subst hk
          simp [alookup_ainsert]
        · simp only [List.mem_cons, alookup_ainsert_ne _ _ _ _ (Ne.symm hk)]
          rw [← hinv k]
          simp [hk]

theorem addServiceLocked_sync (r : ServiceRegistry) (svc : ExposedService)
    (h : portsListenersSync r) : portsListenersSync (addServiceLocked r svc).1 := by
  unfold addServiceLocked
  exact addPorts_sync svc svc.ports _ h

theorem removePorts_sync (pms : List PortMapping) :
    ∀ r : ServiceRegistry, portsListenersSync r →
      portsListenersSync (removePorts pms r).1 := by
  induction pms with
  | nil => intro r h; simpa [removePorts_nil] using h
  | cons pm rest ih =>
    intro r hinv
    rw [removePorts_cons]
    cases hlk : alookup (portKey pm.port pm.protocol) r.listeners with
    | none => exact ih r hinv
    | some pl =>
      apply ih
      intro k
      by_cases hk : k = portKey pm.port pm.protocol
      · subst hk
        simp [deallocatePortLocked, mem_keyErase_self, alookup_aerase]
      · simp only [deallocatePortLocked]
        rw [mem_keyErase_ne _ _ _ hk]
        rw [alookup_aerase_ne _ _ _ (fun hh => hk hh.symm)]
        exact hinv k

theorem removeServiceLocked_sync (r : ServiceRegistry) (subdomain : String)
    (h : portsListenersSync r) :
    portsListenersSync (removeServiceLocked r subdomain).1 := by
  unfold removeServiceLocked
  cases alookup subdomain r.services with
  | none => exact h
  | some svc => exact removePorts_sync svc.ports r h

theorem updateRemovePhase_sync (entries nm : List (String × ExposedService)) :
    ∀ r : ServiceRegistry, portsListenersSync r →
      portsListenersSync (updateRemovePhase entries nm r).1 := by
  induction entries with
  | nil => intro r h; simpa [updateRemovePhase_nil] using h
  | cons e rest ih =>
    intro r hinv
    obtain ⟨subdomain, oldSvc⟩ := e
    rw [updateRemovePhase_cons]
    split
    · exact ih _ (removeServiceLocked_sync r subdomain hinv)
    · split
      · exact ih r hinv
      · exact ih _ (removeServiceLocked_sync r subdomain hinv)

theorem updateAddPhase_sync (entries : List (String × ExposedService)) :
    ∀ r : ServiceRegistry, portsListenersSync r →
      portsListenersSync (updateAddPhase entries r).1 := by
  induction entries with
  | nil => intro r h; simpa [updateAddPhase_nil] using h
  | cons e rest ih =>
    intro r hinv
    obtain ⟨subdomain, svc⟩ := e
    rw [updateAddPhase_cons]
    split
    · exact ih r hinv
    · exact ih _ (addServiceLocked_sync r svc hinv)

theorem Update_sync (r : ServiceRegistry) (services : List ExposedService)
    (h : portsListenersSync r) : portsListenersSync (Update r services).1 := by
  unfold Update
  exact updateAddPhase_sync _ _ (updateRemovePhase_sync _ _ _ h)

theorem applyOp_sync (r : ServiceRegistry) (op : RegOp)
    (h : portsListenersSync r) : portsListenersSync (applyOp r op) := by
  cases op with
  | update services => exact Update_sync r services h
  | removeService subdomain => exact removeServiceLocked_sync r subdomain h

/-- C1: starting from a fresh registry, after any sequence of
`Update` / `RemoveService` operations (with listener starts
succeeding, as the model assumes), a `(port, protocol)` pair is in
`allocatedPorts` iff a listener is stored under that key — in
particular also after removing a service whose requested port had
been remapped. -/
theorem c1_allocated_iff_listener (s e : Int) (ops : List RegOp) :
    ∀ k : PortKey,
      k ∈ (applyOps ops (NewServiceRegistry s e)).allocatedPorts ↔
      (alookup k (applyOps ops (NewServiceRegistry s e)).listeners).isSome = true := by
  suffices h : ∀ r : ServiceRegistry, portsListenersSync r →
      portsListenersSync (applyOps ops r) from
    h (NewServiceRegistry s e) (by intro k; simp [NewServiceRegistry, alookup])
  unfold applyOps
  induction ops with
  | nil => intro r h; simpa using h
  | cons op rest ih =>
    intro r h
    exact ih (applyOp r op) (applyOp_sync r op h)

/-! ### Services-map characterization (towards C3 and C4) -/

/-- Keys of an association list are pairwise distinct. -/
def keysNodup {β : Type} (l : List (String × β)) : Prop :=
  (l.map Prod.fst).Nodup

instance {β : Type} (l : List (String × β)) : Decidable (keysNodup l) := by
  unfold keysNodup
  infer_instance

theorem aerase_sublist {α β : Type} [DecidableEq α] (k : α) (l : List (α × β)) :
    List.Sublist (aerase k l) l := by
  induction l with
  | nil => simp [aerase]
  | cons p rest ih =>
    obtain ⟨a, b⟩ := p
    by_cases ha : a = k
    · simp only [aerase, if_pos ha]
      exact ih.cons _
    · simp only [aerase, if_neg ha]
      exact ih.cons₂ _

theorem alookup_eq_none_iff {β : Type} (k : String) (l : List (String × β)) :
    alookup k l = none ↔ k ∉ l.map Prod.fst := by
  induction l with
  | nil => simp [alookup]
  | cons p rest ih =>
    obtain ⟨a, b⟩ := p
    by_cases ha : a = k
    · subst ha
      simp [alookup]
    · simp only [alookup, if_neg ha, List.map_cons, List.mem_cons]
      rw [ih]
      constructor
      · intro h hc
        rcases hc with hc | hc
        · exact ha hc.symm
        · exact h hc
      · intro h hc
        exact h (Or.inr hc)

theorem alookup_isSome_of_mem_keys {β : Type} (k : String) (l : List (String × β))
    (h : k ∈ l.map Prod.fst) : (alookup k l).isSome = true := by
  cases hlk : alookup k l with
  | none => exact absurd ((alookup_eq_none_iff k l).mp hlk) (by simp [h])
  | some v => rfl

theorem keysNodup_aerase {β : Type} (k : String) (l : List (String × β))
    (h : keysNodup l) : keysNodup (aerase k l) :=
  ((aerase_sublist k l).map Prod.fst).nodup h

theorem keysNodup_ainsert {β : Type} (k : String) (v : β) (l : List (String × β))
    (h : keysNodup l) : keysNodup (ainsert k v l) := by
  unfold keysNodup ainsert
  rw [List.map_cons, List.nodup_cons]
  refine ⟨?_, keysNodup_aerase k l h⟩
  intro hc
  exact absurd ((alookup_eq_none_iff k (aerase k l)).mp (alookup_aerase k l)) (by simp [hc])

theorem alookup_of_mem_keysNodup {β : Type} {k : String} {v : β}
    {l : List (String × β)} (hnodup : keysNodup l) (hmem : (k, v) ∈ l) :
    alookup k l = some v := by
  induction l with
  | nil => simp at hmem
  | cons p rest ih =>
    obtain ⟨a, b⟩ := p
    unfold keysNodup at hnodup
    rw [List.map_cons, List.nodup_cons] at hnodup
    rcases List.mem_cons.mp hmem with heq | hmem'
    · obtain ⟨rfl, rfl⟩ := Prod.mk.injEq _ _ _ _ ▸ heq
      simp [alookup]
    · have hak : a ≠ k := by
        intro hak
        subst hak
        exact hnodup.1 (List.mem_map.mpr ⟨(a, v), hmem', rfl⟩)
      simp only [alookup, if_neg hak]
      exact ih hnodup.2 hmem'

theorem mem_of_alookup {β : Type} {k : String} {v : β} {l : List (String × β)}
    (h : alookup k l = some v) : (k, v) ∈ l := by
  induction l with
  | nil => simp [alookup] at h
  | cons p rest ih =>
    obtain ⟨a, b⟩ := p
    by_cases ha : a = k
    · subst ha
      simp only [alookup, if_pos rfl] at h
      obtain rfl : b = v := by simpa using h
      exact List.mem_cons_self _ _
    · simp only [alookup, if_neg ha] at h
      exact List.mem_cons_of_mem _ (ih h)

theorem aerase_of_alookup_none {β : Type} (k : String) (l : List (String × β))
    (h : alookup k l = none) : aerase k l = l := by
  induction l with
  | nil => rfl
  | cons p rest ih =>
    obtain ⟨a, b⟩ := p
    by_cases ha : a = k
    · subst ha
      simp [alookup] at h
    · simp only [alookup, if_neg ha] at h
      simp only [aerase, if_neg ha]
      rw [ih h]

/-- `buildMap` is a left fold of replacing inserts. -/
theorem buildMap_eq_foldl (svcs : List ExposedService) :
    buildMap svcs = svcs.foldl (fun m svc => ainsert svc.subdomain svc m) [] := rfl

theorem buildMap_append_singleton (svcs : List ExposedService) (s : ExposedService) :
    buildMap (svcs ++ [s]) = ainsert s.subdomain s (buildMap svcs) := by
  unfold buildMap
  rw [List.foldl_append]
  rfl

theorem keysNodup_foldl_ainsert (svcs : List ExposedService) :
    ∀ m : List (String × ExposedService), keysNodup m →
      keysNodup (svcs.foldl (fun m svc => ainsert svc.subdomain svc m) m) := by
  induction svcs with
  | nil => intro m h; simpa using h
  | cons s rest ih =>
    intro m h
    exact ih _ (keysNodup_ainsert _ _ _ h)

theorem buildMap_keysNodup (svcs : List ExposedService) : keysNodup (buildMap svcs) := by
  rw [buildMap_eq_foldl]
  exact keysNodup_foldl_ainsert svcs [] (by simp [keysNodup])

theorem mem_ainsert {β : Type} (k : String) (v : β) (l : List (String × β))
    (kv : String × β) (h : kv ∈ ainsert k v l) : kv = (k, v) ∨ kv ∈ l := by
  rcases List.mem_cons.mp h with h' | h'
  · exact Or.inl h'
  · exact Or.inr ((aerase_sublist k l).subset h')

theorem buildMap_entry_subdomain (svcs : List ExposedService) :
    ∀ kv ∈ buildMap svcs, kv.2.subdomain = kv.1 := by
  rw [buildMap_eq_foldl]
  suffices h : ∀ m : List (String × ExposedService),
      (∀ kv ∈ m, kv.2.subdomain = kv.1) →
      ∀ kv ∈ svcs.foldl (fun m svc => ainsert svc.subdomain svc m) m,
        kv.2.subdomain = kv.1 from h [] (by simp)
  induction svcs with
  | nil => intro m h; simpa using h
  | cons s rest ih =>
    intro m h
    apply ih
    intro kv hkv
    rcases mem_ainsert _ _ _ _ hkv with rfl | hkv'
    · rfl
    · exact h kv hkv'

/-- C4's replacement policy at the map level: on duplicate
subdomains, the LAST listed service wins. -/
theorem alookup_buildMap (svcs : List ExposedService) (sub : String) :
    alookup sub (buildMap svcs) =
      svcs.reverse.find? (fun s => decide (s.subdomain = sub)) := by
  induction svcs using List.reverseRecOn with
  | nil => rfl
  | append_singleton rest s ih =>
    rw [buildMap_append_singleton, List.reverse_append]
    simp only [List.reverse_cons, List.reverse_nil, List.nil_append, List.singleton_append]
    by_cases hs : s.subdomain = sub
    · subst hs
      rw [alookup_ainsert]
      rw [List.find?_cons_of_pos _ (by simp)]
    · rw [alookup_ainsert_ne _ _ _ _ hs]
      rw [List.find?_cons_of_neg _ (by simpa using hs)]
      exact ih

theorem allocatePortLocked_services (r : ServiceRegistry) (port : Int)
    (protocol : String) : ((allocatePortLocked r port protocol).1).services = r.services := by
  unfold allocatePortLocked
  by_cases hfree : isPortAvailableLocked r port protocol = true
  · rw [if_pos hfree]
  · rw [if_neg hfree]
    cases (rangeList r.portRangeStart r.portRangeEnd).find?
        (fun q => isPortAvailableLocked r q protocol) <;> rfl

theorem addPorts_services (svc : ExposedService) (pms : List PortMapping) :
    ∀ r : ServiceRegistry, (addPorts svc pms r).1.services = r.services := by
  induction pms with
  | nil => intro r; rfl
  | cons pm rest ih =>
    intro r
    rw [addPorts_cons]
    cases halloc : allocatePortLocked r pm.port pm.protocol with
    | mk r1 res =>
      cases res with
      | none => exact ih r
      | some p =>
        have h1 : r1.services = r.services := by
          have := allocatePortLocked_services r pm.port pm.protocol
          rw [halloc] at this
          exact this
        simpa [ih] using h1

theorem addServiceLocked_services (r : ServiceRegistry) (svc : ExposedService) :
    (addServiceLocked r svc).1.services = ainsert svc.subdomain svc r.services := by
  unfold addServiceLocked
  rw [addPorts_services]

theorem removePorts_services (pms : List PortMapping) :
    ∀ r : ServiceRegistry, (removePorts pms r).1.services = r.services := by
  induction pms with
  | nil => intro r; rfl
  | cons pm rest ih =>
    intro r
    rw [removePorts_cons]
    cases alookup (portKey pm.port pm.protocol) r.listeners with
    | none => exact ih r
    | some pl => simpa using ih _

theorem removeServiceLocked_services (r : ServiceRegistry) (sub : String) :
    (removeServiceLocked r sub).1.services = aerase sub r.services := by
  unfold removeServiceLocked
  cases hlk : alookup sub r.services with
  | none =>
    rw [aerase_of_alookup_none sub r.services hlk]
  | some svc =>
    simp only
    rw [removePorts_services]

/-- Effect of the removal phase on the services map, by cases on the
processed entry list. -/
theorem updateRemovePhase_services_spec (nm : List (String × ExposedService)) :
    ∀ (entries : List (String × ExposedService)) (r : ServiceRegistry),
      keysNodup entries →
      (∀ kv ∈ entries, alookup kv.1 r.services = some kv.2) →
      (∀ sub old, (sub, old) ∈ entries →
        ((∀ v, alookup sub nm = some v → servicesEqual old v = true →
          alookup sub ((updateRemovePhase entries nm r).1).services = some old) ∧
        (alookup sub nm = none →
          alookup sub ((updateRemovePhase entries nm r).1).services = none) ∧
        (∀ v, alookup sub nm = some v → servicesEqual old v = false →
          alookup sub ((updateRemovePhase entries nm r).1).services = none))) ∧
      (∀ sub, sub ∉ entries.map Prod.fst →
        alookup sub ((updateRemovePhase entries nm r).1).services =
          alookup sub r.services) := by
  intro entries
  induction entries with
  | nil =>
    intro r _ _
    refine ⟨?_, ?_⟩
    · intro sub old hmem
      simp at hmem
    · intro sub _
      rw [updateRemovePhase_nil]
  | cons e rest ih =>
    intro r hnodup hcons
    obtain ⟨k0, old0⟩ := e
    unfold keysNodup at hnodup
    rw [List.map_cons, List.nodup_cons] at hnodup
    have hk0rest : k0 ∉ rest.map Prod.fst := hnodup.1
    -- the state after processing the head entry
    have hstep : ∀ r' : ServiceRegistry,
        r'.services = aerase k0 r.services ∨ r' = r →
        (∀ kv ∈ rest, alookup kv.1 r'.services = some kv.2) := by
      intro r' hcase kv hkv
      have hne : kv.1 ≠ k0 := by
        intro he
        exact hk0rest (he ▸ List.mem_map.mpr ⟨kv, hkv, rfl⟩)
      rcases hcase with h' | h'
      · rw [h', alookup_aerase_ne _ _ _ (fun hh => hne hh.symm)]
        exact hcons kv (List.mem_cons_of_mem _ hkv)
      · rw [h']
        exact hcons kv (List.mem_cons_of_mem _ hkv)
    rw [updateRemovePhase_cons]
    cases hnm : alookup k0 nm with
    | none =>
      -- head entry is torn down
      have hsrv : (removeServiceLocked r k0).1.services = aerase k0 r.services :=
        removeServiceLocked_services r k0
      obtain ⟨ihA, ihB⟩ := ih (removeServiceLocked r k0).1 hnodup.2
        (hstep _ (Or.inl hsrv))
      refine ⟨?_, ?_⟩
      · intro sub old hmem
        rcases List.mem_cons.mp hmem with heq | hmem'
        · obtain ⟨rfl, rfl⟩ := Prod.mk.injEq _ _ _ _ ▸ heq
          refine ⟨?_, ?_, ?_⟩
          · intro v hv _
            rw [hv] at hnm
            simp at hnm
          · intro _
            rw [ihB sub hk0rest, hsrv, alookup_aerase]
          · intro v hv _
            rw [hv] at hnm
            simp at hnm
        · exact ihA sub old hmem'
      · intro sub hsub
        rw [List.map_cons, List.mem_cons] at hsub
        have hsub1 : sub ≠ k0 := fun hh => hsub (Or.inl hh)
        have hsub2 : sub ∉ rest.map Prod.fst := fun hh => hsub (Or.inr hh)
        rw [ihB sub hsub2, hsrv, alookup_aerase_ne _ _ _ (fun hh => hsub1 hh.symm)]
    | some newSvc =>
      dsimp only
      by_cases heq : servicesEqual old0 newSvc = true
      · rw [if_pos heq]
        obtain ⟨ihA, ihB⟩ := ih r hnodup.2 (hstep r (Or.inr rfl))
        refine ⟨?_, ?_⟩
        · intro sub old hmem
          rcases List.mem_cons.mp hmem with heqm | hmem'
          · obtain ⟨rfl, rfl⟩ := Prod.mk.injEq _ _ _ _ ▸ heqm
            refine ⟨?_, ?_, ?_⟩
            · intro v hv _
              rw [ihB sub hk0rest]
              exact hcons (sub, old) (List.mem_cons_self _ _)
            · intro hv
              rw [hv] at hnm
              simp at hnm
            · intro v hv hne
              rw [hv] at hnm
              obtain rfl : v = newSvc := by simpa using hnm
              rw [heq] at hne
              simp at hne
          · exact ihA sub old hmem'
        · intro sub hsub
          rw [List.map_cons, List.mem_cons] at hsub
          exact ihB sub (fun hh => hsub (Or.inr hh))
      · rw [if_neg heq]
        have hsrv : (removeServiceLocked r k0).1.services = aerase k0 r.services :=
          removeServiceLocked_services r k0
        obtain ⟨ihA, ihB⟩ := ih (removeServiceLocked r k0).1 hnodup.2
          (hstep _ (Or.inl hsrv))
        refine ⟨?_, ?_⟩
        · intro sub old hmem
          rcases List.mem_cons.mp hmem with heqm | hmem'
          · obtain ⟨rfl, rfl⟩ := Prod.mk.injEq _ _ _ _ ▸ heqm
            refine ⟨?_, ?_, ?_⟩
            · intro v hv hveq
              rw [hv] at hnm
              obtain rfl : v = newSvc := by simpa using hnm
              rw [hveq] at heq
              simp at heq
            · intro hv
              rw [hv] at hnm
              simp at hnm
            · intro v hv _
              rw [ihB sub hk0rest, hsrv, alookup_aerase]
          · exact ihA sub old hmem'
        · intro sub hsub
          rw [List.map_cons, List.mem_cons] at hsub
          have hsub1 : sub ≠ k0 := fun hh => hsub (Or.inl hh)
          have hsub2 : sub ∉ rest.map Prod.fst := fun hh => hsub (Or.inr hh)
          rw [ihB sub hsub2, hsrv, alookup_aerase_ne _ _ _ (fun hh => hsub1 hh.symm)]

/-- Effect of the add phase on the services map. -/
theorem updateAddPhase_services_spec :
    ∀ (entries : List (String × ExposedService)) (r : ServiceRegistry),
      keysNodup entries →
      (∀ kv ∈ entries, kv.2.subdomain = kv.1) →
      (∀ sub v, (sub, v) ∈ entries →
        alookup sub ((updateAddPhase entries r).1).services =
          (match alookup sub r.services with
           | some w => some w
           | none => some v)) ∧
      (∀ sub, sub ∉ entries.map Prod.fst →
        alookup sub ((updateAddPhase entries r).1).services =
          alookup sub r.services) := by
  intro entries
  induction entries with
  | nil =>
    intro r _ _
    exact ⟨fun sub v hmem => by simp at hmem, fun sub _ => by rw [updateAddPhase_nil]⟩
  | cons e rest ih =>
    intro r hnodup hkeys
    obtain ⟨k0, v0⟩ := e
    unfold keysNodup at hnodup
    rw [List.map_cons, List.nodup_cons] at hnodup
    have hk0rest : k0 ∉ rest.map Prod.fst := hnodup.1
    have hsubm : v0.subdomain = k0 := hkeys (k0, v0) (List.mem_cons_self _ _)
    have hkeys' : ∀ kv ∈ rest, kv.2.subdomain = kv.1 :=
      fun kv hkv => hkeys kv (List.mem_cons_of_mem _ hkv)
    rw [updateAddPhase_cons]
    cases hlk : alookup k0 r.services with
    | some w0 =>
      dsimp only
      obtain ⟨ihA, ihB⟩ := ih r hnodup.2 hkeys'
      refine ⟨?_, ?_⟩
      · intro sub v hmem
        rcases List.mem_cons.mp hmem with heqm | hmem'
        · obtain ⟨rfl, rfl⟩ := Prod.mk.injEq _ _ _ _ ▸ heqm
          rw [ihB sub hk0rest, hlk]
        · exact ihA sub v hmem'
      · intro sub hsub
        rw [List.map_cons, List.mem_cons] at hsub
        exact ihB sub (fun hh => hsub (Or.inr hh))
    | none =>
      dsimp only
      have hsrv : (addServiceLocked r v0).1.services = ainsert k0 v0 r.services := by
        rw [addServiceLocked_services, hsubm]
      obtain ⟨ihA, ihB⟩ := ih (addServiceLocked r v0).1 hnodup.2 hkeys'
      refine ⟨?_, ?_⟩
      · intro sub v hmem
        rcases List.mem_cons.mp hmem with heqm | hmem'
        · obtain ⟨rfl, rfl⟩ := Prod.mk.injEq _ _ _ _ ▸ heqm
          rw [ihB sub hk0rest, hsrv, alookup_ainsert, hlk]
        · have hne : sub ≠ k0 := by
            intro he
            exact hk0rest (he ▸ List.mem_map.mpr ⟨(sub, v), hmem', rfl⟩)
          rw [ihA sub v hmem', hsrv, alookup_ainsert_ne _ _ _ _ (fun hh => hne hh.symm)]
      · intro sub hsub
        rw [List.map_cons, List.mem_cons] at hsub
        have hsub1 : sub ≠ k0 := fun hh => hsub (Or.inl hh)
        have hsub2 : sub ∉ rest.map Prod.fst := fun hh => hsub (Or.inr hh)
        rw [ihB sub hsub2, hsrv, alookup_ainsert_ne _ _ _ _ (fun hh => hsub1 hh.symm)]

theorem portsPairEqual_refl (l : List PortMapping) : portsPairEqual l l = true := by
  induction l with
  | nil => rfl
  | cons p rest ih => simp [portsPairEqual, ih]

theorem servicesEqual_refl (a : ExposedService) : servicesEqual a a = true := by
  unfold servicesEqual
  rw [if_neg (by simp), if_neg (by simp)]
  exact portsPairEqual_refl a.ports

/-- Relation between a stored service and the desired one: equal up to
`servicesEqual` (the stored copy from an earlier update is kept when
structurally unchanged). -/
def svcOptRel : Option ExposedService → Option ExposedService → Prop
  | none, none => True
  | some w, some v => servicesEqual w v = true
  | _, _ => False

theorem Update_eq (r : ServiceRegistry) (svcs : List ExposedService) :
    Update r svcs =
      ((updateAddPhase (buildMap svcs)
          (updateRemovePhase r.services (buildMap svcs) r).1).1,
        (updateRemovePhase r.services (buildMap svcs) r).2 ++
        (updateAddPhase (buildMap svcs)
          (updateRemovePhase r.services (buildMap svcs) r).1).2) := rfl

theorem updateRemovePhase_keysNodup (nm : List (String × ExposedService)) :
    ∀ (entries : List (String × ExposedService)) (r : ServiceRegistry),
      keysNodup r.services →
      keysNodup ((updateRemovePhase entries nm r).1).services := by
  intro entries
  induction entries with
  | nil => intro r h; simpa [updateRemovePhase_nil] using h
  | cons e rest ih =>
    intro r h
    obtain ⟨k0, old0⟩ := e
    rw [updateRemovePhase_cons]
    have hrm : keysNodup ((removeServiceLocked r k0).1).services := by
      rw [removeServiceLocked_services]
      exact keysNodup_aerase _ _ h
    cases alookup k0 nm with
    | none => exact ih _ hrm
    | some newSvc =>
      dsimp only
      by_cases heq : servicesEqual old0 newSvc = true
      · rw [if_pos heq]
        exact ih r h
      · rw [if_neg heq]
        exact ih _ hrm

theorem updateAddPhase_keysNodup :
    ∀ (entries : List (String × ExposedService)) (r : ServiceRegistry),
      keysNodup r.services →
      keysNodup ((updateAddPhase entries r).1).services := by
  intro entries
  induction entries with
  | nil => intro r h; simpa [updateAddPhase_nil] using h
  | cons e rest ih =>
    intro r h
    obtain ⟨k0, v0⟩ := e
    rw [updateAddPhase_cons]
    cases alookup k0 r.services with
    | some _ => exact ih r h
    | none =>
      dsimp only
      apply ih
      rw [addServiceLocked_services]
      exact keysNodup_ainsert _ _ _ h

/-- The services map after `Update` agrees pointwise (up to
`servicesEqual`) with the desired map, and its keys stay distinct. -/
theorem Update_services_spec (r : ServiceRegistry) (svcs : List ExposedService)
    (hwf : keysNodup r.services) :
    (∀ sub, svcOptRel (alookup sub ((Update r svcs).1).services)
        (alookup sub (buildMap svcs))) ∧
    keysNodup ((Update r svcs).1).services := by
  have hcons : ∀ kv ∈ r.services, alookup kv.1 r.services = some kv.2 := by
    intro kv hkv
    obtain ⟨a, b⟩ := kv
    exact alookup_of_mem_keysNodup hwf hkv
  obtain ⟨hA1, hB1⟩ := updateRemovePhase_services_spec (buildMap svcs) r.services r hwf hcons
  obtain ⟨hA2, hB2⟩ := updateAddPhase_services_spec (buildMap svcs)
    (updateRemovePhase r.services (buildMap svcs) r).1
    (buildMap_keysNodup svcs) (buildMap_entry_subdomain svcs)
  constructor
  · intro sub
    rw [Update_eq]
    cases hnm : alookup sub (buildMap svcs) with
    | some v =>
      have hvmem : (sub, v) ∈ buildMap svcs := mem_of_alookup hnm
      by_cases hks : sub ∈ r.services.map Prod.fst
      · obtain ⟨p, hpmem, hpfst⟩ := List.mem_map.mp hks
        obtain ⟨sub', old⟩ := p
        obtain rfl : sub = sub' := hpfst.symm
        obtain ⟨hkeep, _, hdrop⟩ := hA1 sub old hpmem
        by_cases heq : servicesEqual old v = true
        · rw [hA2 sub v hvmem, hkeep v hnm heq]
          exact heq
        · rw [hA2 sub v hvmem, hdrop v hnm (by simpa using heq)]
          exact servicesEqual_refl v
      · have h1 := hB1 sub hks
        rw [hA2 sub v hvmem, h1, (alookup_eq_none_iff _ _).mpr hks]
        exact servicesEqual_refl v
    | none =>
      have hkn : sub ∉ (buildMap svcs).map Prod.fst :=
        (alookup_eq_none_iff _ _).mp hnm
      rw [hB2 sub hkn]
      by_cases hks : sub ∈ r.services.map Prod.fst
      · obtain ⟨p, hpmem, hpfst⟩ := List.mem_map.mp hks
        obtain ⟨sub', old⟩ := p
        obtain rfl : sub = sub' := hpfst.symm
        obtain ⟨_, hgone, _⟩ := hA1 sub old hpmem
        rw [hgone hnm]
        trivial
      · rw [hB1 sub hks, (alookup_eq_none_iff _ _).mpr hks]
        trivial
  · rw [Update_eq]
    exact updateAddPhase_keysNodup _ _ (updateRemovePhase_keysNodup _ _ _ hwf)

theorem updateRemovePhase_skip (nm : List (String × ExposedService)) :
    ∀ (entries : List (String × ExposedService)) (r : ServiceRegistry),
      (∀ kv ∈ entries, ∃ v, alookup kv.1 nm = some v ∧ servicesEqual kv.2 v = true) →
      updateRemovePhase entries nm r = (r, []) := by
  intro entries
  induction entries with
  | nil => intro r _; rfl
  | cons e rest ih =>
    intro r h
    obtain ⟨k0, old0⟩ := e
    obtain ⟨v, hv, heq⟩ := h (k0, old0) (List.mem_cons_self _ _)
    rw [updateRemovePhase_cons, hv]
    dsimp only
    rw [if_pos heq]
    exact ih r (fun kv hkv => h kv (List.mem_cons_of_mem _ hkv))

theorem updateAddPhase_skip :
    ∀ (entries : List (String × ExposedService)) (r : ServiceRegistry),
      (∀ kv ∈ entries, (alookup kv.1 r.services).isSome = true) →
      updateAddPhase entries r = (r, []) := by
  intro entries
  induction entries with
  | nil => intro r _; rfl
  | cons e rest ih =>
    intro r h
    obtain ⟨k0, v0⟩ := e
    have hsome := h (k0, v0) (List.mem_cons_self _ _)
    rw [updateAddPhase_cons]
    cases hlk : alookup k0 r.services with
    | none => rw [hlk] at hsome; simp at hsome
    | some w =>
      exact ih r (fun kv hkv => h kv (List.mem_cons_of_mem _ hkv))

/-- C3: applying the same desired state twice produces no listener
churn at all on the second `Update`: its event trace (the
`Start`/`Stop` calls) is empty. -/
theorem c3_idempotent (r : ServiceRegistry) (svcs : List ExposedService)
    (hwf : keysNodup r.services) :
    (Update (Update r svcs).1 svcs).2 = [] := by
  obtain ⟨hrel, hnodup1⟩ := Update_services_spec r svcs hwf
  have hskip1 : updateRemovePhase ((Update r svcs).1).services (buildMap svcs)
      (Update r svcs).1 = ((Update r svcs).1, []) := by
    apply updateRemovePhase_skip
    intro kv hkv
    have hlk : alookup kv.1 ((Update r svcs).1).services = some kv.2 := by
      obtain ⟨a, b⟩ := kv
      exact alookup_of_mem_keysNodup hnodup1 hkv
    have hr := hrel kv.1
    rw [hlk] at hr
    cases hnm : alookup kv.1 (buildMap svcs) with
    | none => rw [hnm] at hr; exact absurd hr (by simp [svcOptRel])
    | some v =>
      rw [hnm] at hr
      exact ⟨v, rfl, hr⟩
  have hskip2 : updateAddPhase (buildMap svcs) (Update r svcs).1 =
      ((Update r svcs).1, []) := by
    apply updateAddPhase_skip
    intro kv hkv
    have hnm : alookup kv.1 (buildMap svcs) = some kv.2 := by
      obtain ⟨a, b⟩ := kv
      exact alookup_of_mem_keysNodup (buildMap_keysNodup svcs) hkv
    have hr := hrel kv.1
    rw [hnm] at hr
    cases hlk : alookup kv.1 ((Update r svcs).1).services with
    | none => rw [hlk] at hr; exact absurd hr (by simp [svcOptRel])
    | some w => rfl
  rw [Update_eq, hskip1]
  dsimp only
  rw [hskip2]
  rfl

/-- The accumulation loop of `DiscoverServices`
(internal/agent/discovery.go): extraction results are appended in
list order, failed extractions are skipped, and no deduplication of
subdomains is performed. -/
def discoverLoop : List (Option ExposedService) → List ExposedService
  | [] => []
  | none :: rest => discoverLoop rest
  | some s :: rest => s :: discoverLoop rest

/-- The two services of the C4 counterexample share the subdomain
`dup` but differ structurally. -/
def svcD1 : ExposedService := ⟨"a", "ns", "dup", [⟨80, 0, "tcp"⟩], "10.0.0.1", ""⟩

def svcD2 : ExposedService := ⟨"b", "ns", "dup", [⟨81, 0, "tcp"⟩], "10.0.0.2", ""⟩

/-- C4 as stated is false: with two services sharing a subdomain, the
registry registers the LAST-listed one (Go map assignment overwrites
while building the desired map), not the first; and discovery keeps
every extracted service, deduplicating nothing. -/
theorem c4_counterexample :
    svcD1.subdomain = "dup" ∧ svcD2.subdomain = "dup" ∧ svcD1 ≠ svcD2 ∧
    alookup "dup"
        ((Update (NewServiceRegistry 30000 32767) [svcD1, svcD2]).1.services) =
      some svcD2 ∧
    discoverLoop [some svcD1, some svcD2] = [svcD1, svcD2] := by
  refine ⟨rfl, rfl, by decide, by decide, rfl⟩

/-- C4 amended: on duplicate subdomains the LAST observed service
wins: the desired map built by `Update` binds each subdomain to the
last service listing it, and after `Update` the registry's entry for
that subdomain is structurally that service; discovery itself emits
every extracted service without deduplication. -/
theorem c4_duplicate_subdomains :
    (∀ (svcs : List ExposedService) (sub : String),
      alookup sub (buildMap svcs) =
        svcs.reverse.find? (fun s => decide (s.subdomain = sub))) ∧
    (∀ (r : ServiceRegistry) (svcs : List ExposedService) (sub : String)
        (v : ExposedService), keysNodup r.services →
      alookup sub (buildMap svcs) = some v →
      ∃ w, alookup sub ((Update r svcs).1).services = some w ∧
        servicesEqual w v = true) ∧
    (∀ results : List ExposedService, discoverLoop (results.map some) = results) := by
  refine ⟨alookup_buildMap, ?_, ?_⟩
  · intro r svcs sub v hwf hnm
    have hr := (Update_services_spec r svcs hwf).1 sub
    rw [hnm] at hr
    cases hlk : alookup sub ((Update r svcs).1).services with
    | none => rw [hlk] at hr; exact absurd hr (by simp [svcOptRel])
    | some w =>
      rw [hlk] at hr
      exact ⟨w, rfl, hr⟩
  · intro results
    induction results with
    | nil => rfl
    | cons s rest ih => simp [discoverLoop, ih]

theorem c4_witness :
    (alookup "dup" (buildMap [svcD1, svcD2]) =
      [svcD1, svcD2].reverse.find? (fun s => decide (s.subdomain = "dup"))) ∧
    keysNodup (NewServiceRegistry 30000 32767).services ∧
    (∃ w, alookup "dup"
        ((Update (NewServiceRegistry 30000 32767) [svcD1, svcD2]).1.services) =
          some w ∧ servicesEqual w svcD2 = true) :=
  ⟨c4_duplicate_subdomains.1 [svcD1, svcD2] "dup", by decide,
    c4_duplicate_subdomains.2.1 (NewServiceRegistry 30000 32767) [svcD1, svcD2]
      "dup" svcD2 (by decide) (by decide)⟩

theorem c3_witness :
    keysNodup (NewServiceRegistry 30000 32767).services ∧
    (Update (Update (NewServiceRegistry 30000 32767) [svcD1]).1 [svcD1]).2 = [] :=
  ⟨by decide,
    c3_idempotent (NewServiceRegistry 30000 32767) [svcD1] (by decide)⟩

/-! ### C6: encode/decode roundtrip -/

theorem parseJStringBody_cons (c : Char) (rest : List Char) :
    parseJStringBody (c :: rest) =
      (if c = '"' then some ([], rest)
       else if c = '\\' then
        match rest with
        | [] => none
        | c2 :: rest2 => (parseJStringBody rest2).map (fun r => (c2 :: r.1, r.2))
       else (parseJStringBody rest).map (fun r => (c :: r.1, r.2))) := by
  rw [parseJStringBody.eq_def]

theorem parseJString_cons (c : Char) (rest : List Char) :
    parseJString (c :: rest) =
      (if c = '"' then (parseJStringBody rest).map (fun r => (String.mk r.1, r.2))
       else none) := rfl

theorem parseDigits_nil (acc : Nat) : parseDigits [] acc = (acc, []) := rfl

theorem parseDigits_cons (c : Char) (rest : List Char) (acc : Nat) :
    parseDigits (c :: rest) acc =
      (if isDigitCh c then parseDigits rest (acc * 10 + digitVal c)
       else (acc, c :: rest)) := rfl

theorem parseNat_cons (c : Char) (rest : List Char) :
    parseNat (c :: rest) =
      (if isDigitCh c then some (parseDigits rest (digitVal c)) else none) := rfl

theorem parseJInt_cons (c : Char) (rest : List Char) :
    parseJInt (c :: rest) =
      (if c = '-' then (parseNat rest).map (fun r => (-(r.1 : Int), r.2))
       else (parseNat (c :: rest)).map (fun r => ((r.1 : Int), r.2))) := rfl

theorem expectTok_append (ps rest : List Char) : expectTok ps (ps ++ rest) = some rest := by
  induction ps with
  | nil => rfl
  | cons p ps ih => simp [expectTok, ih]

theorem parseJStringBody_print (s : List Char) (rest : List Char) :
    parseJStringBody (jsonEscape s ++ '"' :: rest) = some (s, rest) := by
  induction s with
  | nil =>
    show parseJStringBody ('"' :: rest) = some ([], rest)
    rw [parseJStringBody_cons, if_pos rfl]
  | cons c cs ih =>
    show parseJStringBody ((jsonEscChar c ++ jsonEscape cs) ++ '"' :: rest) = _
    by_cases hc : (c = '"' ∨ c = '\\')
    · have hesc : jsonEscChar c = ['\\', c] := by
        rcases hc with hc | hc <;> simp [jsonEscChar, hc]
      rw [hesc]
      show parseJStringBody ('\\' :: c :: (jsonEscape cs ++ '"' :: rest)) = _
      rw [parseJStringBody_cons]
      rw [if_neg (by decide), if_pos rfl]
      show (parseJStringBody (jsonEscape cs ++ '"' :: rest)).map
        (fun r => (c :: r.1, r.2)) = _
      rw [ih]
      rfl
    · rw [not_or] at hc
      have hesc : jsonEscChar c = [c] := by
        simp [jsonEscChar, hc.1, hc.2]
      rw [hesc]
      show parseJStringBody (c :: (jsonEscape cs ++ '"' :: rest)) = _
      rw [parseJStringBody_cons]
      rw [if_neg hc.1, if_neg hc.2]
      rw [ih]
      rfl

theorem parseJString_print (s : String) (rest : List Char) :
    parseJString (printJString s ++ rest) = some (s, rest) := by
  show parseJString ('"' :: ((jsonEscape s.data ++ ['"']) ++ rest)) = _
  rw [parseJString_cons]
  rw [if_pos rfl]
  rw [List.append_assoc]
  show (parseJStringBody (jsonEscape s.data ++ '"' :: rest)).map _ = _
  rw [parseJStringBody_print]
  rfl

theorem digitVal_digitChar (d : Nat) (h : d < 10) : digitVal (digitChar d) = d := by
  interval_cases d <;> rfl

theorem isDigitCh_digitChar (d : Nat) (h : d < 10) : isDigitCh (digitChar d) = true := by
  interval_cases d <;> rfl

theorem digitChar_ne_dash (d : Nat) (h : d < 10) : digitChar d ≠ '-' := by
  interval_cases d <;> decide

/-- The next character of the stream is not a digit (or the stream
ended). -/
def headNotDigit : List Char → Bool
  | [] => true
  | c :: _ => !isDigitCh c

theorem parseDigits_append (ds : List Nat) :
    ∀ (acc : Nat) (rest : List Char), (∀ d ∈ ds, d < 10) → headNotDigit rest = true →
      parseDigits (ds.map digitChar ++ rest) acc =
        (ds.foldl (fun a d => a * 10 + d) acc, rest) := by
  induction ds with
  | nil =>
    intro acc rest _ hrest
    cases rest with
    | nil => rfl
    | cons c t =>
      show parseDigits (c :: t) acc = (acc, c :: t)
      have hh : isDigitCh c = false := by simpa [headNotDigit] using hrest
      rw [parseDigits_cons, if_neg (by simp [hh])]
  | cons d ds ih =>
    intro acc rest hd hrest
    have hd0 : d < 10 := hd d (List.mem_cons_self _ _)
    show parseDigits (digitChar d :: (ds.map digitChar ++ rest)) acc = _
    rw [parseDigits_cons, if_pos (isDigitCh_digitChar d hd0)]
    rw [digitVal_digitChar d hd0]
    rw [ih _ rest (fun x hx => hd x (List.mem_cons_of_mem _ hx)) hrest]
    rfl

theorem foldr_horner (L : List Nat) :
    L.foldr (fun d a => a * 10 + d) 0 = Nat.ofDigits 10 L := by
  induction L with
  | nil => rfl
  | cons d L ih =>
    simp only [List.foldr_cons, ih, Nat.ofDigits_cons]
    ring

theorem foldl_digits_reverse (n : Nat) :
    ((Nat.digits 10 n).reverse).foldl (fun a d => a * 10 + d) 0 = n := by
  rw [(Nat.digits 10 n).foldl_reverse (fun a d => a * 10 + d) 0]
  rw [foldr_horner]
  exact Nat.ofDigits_digits 10 n

theorem natDigits_eq_digits : ∀ (fuel n : Nat), n ≤ fuel → natDigits fuel n = Nat.digits 10 n := by
  intro fuel
  induction fuel with
  | zero =>
    intro n h
    interval_cases n
    simp [natDigits]
  | succ f ih =>
    intro n h
    by_cases hn : n = 0
    · simp [natDigits, hn]
    · show (if n = 0 then [] else n % 10 :: natDigits f (n / 10)) = _
      rw [if_neg hn]
      have hdiv : n / 10 ≤ f := by
        have := Nat.div_lt_self (Nat.pos_of_ne_zero hn) (by norm_num : (1 : ℕ) < 10)
        omega
      rw [ih (n / 10) hdiv]
      rw [Nat.digits_def' (by norm_num : (1 : ℕ) < 10) (Nat.pos_of_ne_zero hn)]

theorem parseNat_printNat (n : Nat) (rest : List Char) (hrest : headNotDigit rest = true) :
    parseNat (printNat n ++ rest) = some (n, rest) := by
  by_cases hn : n = 0
  · subst hn
    show parseNat ('0' :: rest) = some (0, rest)
    rw [parseNat_cons, if_pos (by decide)]
    have h0 : digitVal '0' = 0 := rfl
    rw [h0]
    have := parseDigits_append [] 0 rest (by simp) hrest
    simp only [List.map_nil, List.nil_append] at this
    rw [this]
    rfl
  · have hb : natDigits n n = Nat.digits 10 n := natDigits_eq_digits n n le_rfl
    have hds : Nat.digits 10 n ≠ [] := Nat.digits_ne_nil_iff_ne_zero.mpr hn
    have hrev : (Nat.digits 10 n).reverse ≠ [] := by simpa using hds
    obtain ⟨d, t, ht⟩ := List.exists_cons_of_ne_nil hrev
    have hmem : ∀ x ∈ (Nat.digits 10 n).reverse, x < 10 := by
      intro x hx
      exact Nat.digits_lt_base (by omega) (List.mem_reverse.mp hx)
    have hd0 : d < 10 := hmem d (ht ▸ List.mem_cons_self _ _)
    have hprint : printNat n = digitChar d :: t.map digitChar := by
      unfold printNat
      rw [if_neg hn, hb, ht]
      rfl
    rw [hprint]
    show parseNat (digitChar d :: (t.map digitChar ++ rest)) = _
    rw [parseNat_cons, if_pos (isDigitCh_digitChar d hd0)]
    rw [digitVal_digitChar d hd0]
    rw [parseDigits_append t d rest
      (fun x hx => hmem x (ht ▸ List.mem_cons_of_mem _ hx)) hrest]
    have : t.foldl (fun a x => a * 10 + x) d = n := by
      have h1 : (d :: t).foldl (fun a x => a * 10 + x) 0 = n := by
        rw [← ht]
        exact foldl_digits_reverse n
      simpa using h1
    rw [this]

theorem printNat_head (n : Nat) :
    ∃ c t, printNat n = c :: t ∧ isDigitCh c = true ∧ c ≠ '-' := by
  by_cases hn : n = 0
  · exact ⟨'0', [], by simp [hn, printNat], by decide, by decide⟩
  · have hb : natDigits n n = Nat.digits 10 n := natDigits_eq_digits n n le_rfl
    have hds : Nat.digits 10 n ≠ [] := Nat.digits_ne_nil_iff_ne_zero.mpr hn
    have hrev : (Nat.digits 10 n).reverse ≠ [] := by simpa using hds
    obtain ⟨d, t, ht⟩ := List.exists_cons_of_ne_nil hrev
    have hd0 : d < 10 :=
      Nat.digits_lt_base (by omega) (List.mem_reverse.mp (ht ▸ List.mem_cons_self _ _))
    refine ⟨digitChar d, t.map digitChar, ?_, isDigitCh_digitChar d hd0,
      digitChar_ne_dash d hd0⟩
    unfold printNat
    rw [if_neg hn, hb, ht]
    rfl

theorem parseJInt_print (i : Int) (rest : List Char) (hrest : headNotDigit rest = true) :
    parseJInt (printJInt i ++ rest) = some (i, rest) := by
  by_cases hi : i < 0
  · have hp : printJInt i = '-' :: printNat i.natAbs := by
      unfold printJInt
      rw [if_pos hi]
    rw [hp]
    show parseJInt ('-' :: (printNat i.natAbs ++ rest)) = _
    rw [parseJInt_cons, if_pos rfl]
    rw [parseNat_printNat _ rest hrest]
    have hni : -(i.natAbs : Int) = i := by
      rw [Int.ofNat_natAbs_of_nonpos (le_of_lt hi)]
      ring
    show some (-(i.natAbs : Int), rest) = some (i, rest)
    rw [hni]
  · have hp : printJInt i = printNat i.toNat := by
      unfold printJInt
      rw [if_neg hi]
    obtain ⟨c, t, hct, hdig, hdash⟩ := printNat_head i.toNat
    rw [hp, hct]
    show parseJInt (c :: (t ++ rest)) = _
    rw [parseJInt_cons, if_neg hdash]
    rw [show c :: (t ++ rest) = (c :: t) ++ rest from rfl, ← hct]
    rw [parseNat_printNat _ rest hrest]
    have hti : (i.toNat : Int) = i := Int.toNat_of_nonneg (by omega)
    show some ((i.toNat : Int), rest) = some (i, rest)
    rw [hti]

theorem headNotDigit_cons (c : Char) (l : List Char) (h : isDigitCh c = false) :
    headNotDigit (c :: l) = true := by simp [headNotDigit, h]

theorem kt_type : keyToken "type" =
    '"' :: 't' :: 'y' :: 'p' :: 'e' :: '"' :: ':' :: [] := rfl

theorem kt_services : keyToken "services" =
    '"' :: 's' :: 'e' :: 'r' :: 'v' :: 'i' :: 'c' :: 'e' :: 's' :: '"' :: ':' :: [] := rfl

theorem kt_name : keyToken "name" =
    '"' :: 'n' :: 'a' :: 'm' :: 'e' :: '"' :: ':' :: [] := rfl

theorem kt_nspace : keyToken "namespace" =
    '"' :: 'n' :: 'a' :: 'm' :: 'e' :: 's' :: 'p' :: 'a' :: 'c' :: 'e' :: '"' :: ':' :: [] := rfl

theorem kt_subdomain : keyToken "subdomain" =
    '"' :: 's' :: 'u' :: 'b' :: 'd' :: 'o' :: 'm' :: 'a' :: 'i' :: 'n' :: '"' :: ':' :: [] := rfl

theorem kt_ports : keyToken "ports" =
    '"' :: 'p' :: 'o' :: 'r' :: 't' :: 's' :: '"' :: ':' :: [] := rfl

theorem kt_port : keyToken "port" =
    '"' :: 'p' :: 'o' :: 'r' :: 't' :: '"' :: ':' :: [] := rfl

theorem kt_target_port : keyToken "target_port" =
    '"' :: 't' :: 'a' :: 'r' :: 'g' :: 'e' :: 't' :: '_' :: 'p' :: 'o' :: 'r' :: 't' ::
      '"' :: ':' :: [] := rfl

theorem kt_protocol : keyToken "protocol" =
    '"' :: 'p' :: 'r' :: 'o' :: 't' :: 'o' :: 'c' :: 'o' :: 'l' :: '"' :: ':' :: [] := rfl

theorem kt_target_ip : keyToken "target_ip" =
    '"' :: 't' :: 'a' :: 'r' :: 'g' :: 'e' :: 't' :: '_' :: 'i' :: 'p' :: '"' :: ':' :: [] := rfl

theorem kt_node_ip : keyToken "node_ip" =
    '"' :: 'n' :: 'o' :: 'd' :: 'e' :: '_' :: 'i' :: 'p' :: '"' :: ':' :: [] := rfl

theorem parseJString_print' (s : String) (rest : List Char) :
    parseJString ('"' :: (jsonEscape s.data ++ '"' :: rest)) = some (s, rest) := by
  have := parseJString_print s rest
  simpa [printJString, List.cons_append, List.append_assoc] using this

theorem parsePortMapping_print (p : PortMapping) (rest : List Char) :
    parsePortMapping (printPortMapping p ++ rest) = some (p, rest) := by
  obtain ⟨port, tp, proto⟩ := p
  unfold parsePortMapping printPortMapping
  simp only [kt_port, kt_target_port, kt_protocol, printJString, List.cons_append,
    List.append_assoc, List.nil_append, List.singleton_append]
  simp only [expectTok, reduceIte]
  rw [parseJInt_print _ _ (headNotDigit_cons _ _ (by decide))]
  simp only [expectTok, reduceIte]
  rw [parseJInt_print _ _ (headNotDigit_cons _ _ (by decide))]
  simp only [expectTok, reduceIte]
  rw [parseJString_print']
  rfl

theorem parsePortsItems_succ (fuel : Nat) (cs : List Char) :
    parsePortsItems (fuel + 1) cs =
      (match parsePortMapping cs with
       | none => none
       | some (p, rest) =>
         match rest with
         | [] => none
         | c :: rest' =>
           if c = ']' then some ([p], rest')
           else if c = ',' then
             (parsePortsItems fuel rest').map (fun r => (p :: r.1, r.2))
           else none) := rfl

theorem parsePortsItems_print (xs : List PortMapping) :
    ∀ (fuel : Nat) (rest : List Char), xs ≠ [] → xs.length ≤ fuel →
      parsePortsItems fuel (printListSep printPortMapping xs ++ ']' :: rest) =
        some (xs, rest) := by
  induction xs with
  | nil => intro fuel rest hne _; exact absurd rfl hne
  | cons x tl ih =>
    intro fuel rest _ hlen
    cases fuel with
    | zero => simp at hlen
    | succ f =>
      cases tl with
      | nil =>
        show parsePortsItems (f + 1) (printPortMapping x ++ ']' :: rest) = _
        rw [parsePortsItems_succ, parsePortMapping_print]
        dsimp only
        rw [if_pos rfl]
      | cons y tl' =>
        show parsePortsItems (f + 1)
          ((printPortMapping x ++ ',' :: printListSep printPortMapping (y :: tl')) ++
            ']' :: rest) = _
        rw [List.append_assoc, List.cons_append]
        rw [parsePortsItems_succ, parsePortMapping_print]
        dsimp only
        rw [if_neg (by decide), if_pos rfl]
        rw [ih f rest (by simp) (by simpa using Nat.le_of_succ_le_succ hlen)]
        rfl

theorem printListSep_length_ge {α : Type} (f : α → List Char)
    (hf : ∀ x, ∃ c t, f x = c :: t) :
    ∀ xs : List α, xs.length ≤ (printListSep f xs).length := by
  intro xs
  induction xs with
  | nil => simp [printListSep]
  | cons x tl ih =>
    obtain ⟨c, t, hct⟩ := hf x
    cases tl with
    | nil => simp [printListSep, hct]
    | cons y tl' =>
      show (x :: y :: tl').length ≤ (f x ++ ',' :: printListSep f (y :: tl')).length
      rw [List.length_append, hct]
      simp only [List.length_cons] at ih ⊢
      omega

theorem printPortMapping_head (x : PortMapping) :
    ∃ t, printPortMapping x = '\x7b' :: t := ⟨_, rfl⟩

theorem parsePortsArr_print (xs : List PortMapping) (rest : List Char) :
    parsePortsArr (printArr printPortMapping xs ++ rest) = some (xs, rest) := by
  cases xs with
  | nil =>
    show parsePortsArr ('[' :: ((printListSep printPortMapping [] ++ [']']) ++ rest)) = _
    show parsePortsArr ('[' :: ']' :: rest) = some ([], rest)
    rw [parsePortsArr]
    rw [if_pos rfl]
    rw [if_pos rfl]
  | cons x tl =>
    have hhead : ∃ u, printListSep printPortMapping (x :: tl) = '\x7b' :: u := by
      obtain ⟨t, ht⟩ := printPortMapping_head x
      cases tl with
      | nil => exact ⟨t, ht⟩
      | cons y tl' =>
        refine ⟨t ++ ',' :: printListSep printPortMapping (y :: tl'), ?_⟩
        show printPortMapping x ++ ',' :: printListSep printPortMapping (y :: tl') = _
        rw [ht]
        rfl
    obtain ⟨u, hu⟩ := hhead
    show parsePortsArr ('[' :: ((printListSep printPortMapping (x :: tl) ++ [']']) ++ rest)) = _
    rw [hu]
    show parsePortsArr ('[' :: '\x7b' :: ((u ++ [']']) ++ rest)) = _
    rw [parsePortsArr]
    rw [if_pos rfl]
    rw [if_neg (by decide)]
    rw [List.append_assoc, List.singleton_append]
    rw [show ('\x7b' :: (u ++ ']' :: rest)) =
      (printListSep printPortMapping (x :: tl) ++ ']' :: rest) from by rw [hu]; rfl]
    apply parsePortsItems_print (x :: tl) _ rest (by simp)
    have h1 := printListSep_length_ge printPortMapping
      (fun z => (printPortMapping_head z).elim (fun t ht => ⟨'\x7b', t, ht⟩)) (x :: tl)
    simp only [List.length_append, List.length_cons] at h1 ⊢
    omega

theorem parseService_print (s : ExposedService) (rest : List Char) :
    parseService (printService s ++ rest) = some (s, rest) := by
  obtain ⟨name, nspace, subdomain, ports, targetIP, nodeIP⟩ := s
  unfold parseService printService
  simp only [kt_name, kt_nspace, kt_subdomain, kt_ports, kt_target_ip, kt_node_ip,
    printJString, List.cons_append, List.append_assoc, List.nil_append,
    List.singleton_append]
  simp only [expectTok, reduceIte]
  rw [parseJString_print']
  simp only [expectTok, reduceIte]
  rw [parseJString_print']
  simp only [expectTok, reduceIte]
  rw [parseJString_print']
  simp only [expectTok, reduceIte]
  rw [parsePortsArr_print]
  simp only [expectTok, reduceIte]
  rw [parseJString_print']
  simp only [expectTok, reduceIte]
  rw [parseJString_print']
  rfl

theorem parseServicesItems_succ (fuel : Nat) (cs : List Char) :
    parseServicesItems (fuel + 1) cs =
      (match parseService cs with
       | none => none
       | some (s, rest) =>
         match rest with
         | [] => none
         | c :: rest' =>
           if c = ']' then some ([s], rest')
           else if c = ',' then
             (parseServicesItems fuel rest').map (fun r => (s :: r.1, r.2))
           else none) := rfl

theorem parseServicesItems_print (xs : List ExposedService) :
    ∀ (fuel : Nat) (rest : List Char), xs ≠ [] → xs.length ≤ fuel →
      parseServicesItems fuel (printListSep printService xs ++ ']' :: rest) =
        some (xs, rest) := by
  induction xs with
  | nil => intro fuel rest hne _; exact absurd rfl hne
  | cons x tl ih =>
    intro fuel rest _ hlen
    cases fuel with
    | zero => simp at hlen
    | succ f =>
      cases tl with
      | nil =>
        show parseServicesItems (f + 1) (printService x ++ ']' :: rest) = _
        rw [parseServicesItems_succ, parseService_print]
        dsimp only
        rw [if_pos rfl]
      | cons y tl' =>
        show parseServicesItems (f + 1)
          ((printService x ++ ',' :: printListSep printService (y :: tl')) ++
            ']' :: rest) = _
        rw [List.append_assoc, List.cons_append]
        rw [parseServicesItems_succ, parseService_print]
        dsimp only
        rw [if_neg (by decide), if_pos rfl]
        rw [ih f rest (by simp) (by simpa using Nat.le_of_succ_le_succ hlen)]
        rfl

theorem printService_head (x : ExposedService) :
    ∃ t, printService x = '\x7b' :: t := ⟨_, rfl⟩

theorem parseServicesArr_print (xs : List ExposedService) (rest : List Char) :
    parseServicesArr (printArr printService xs ++ rest) = some (xs, rest) := by
  cases xs with
  | nil =>
    show parseServicesArr ('[' :: ']' :: rest) = some ([], rest)
    rw [parseServicesArr]
    rw [if_pos rfl]
    rw [if_pos rfl]
  | cons x tl =>
    have hhead : ∃ u, printListSep printService (x :: tl) = '\x7b' :: u := by
      obtain ⟨t, ht⟩ := printService_head x
      cases tl with
      | nil => exact ⟨t, ht⟩
      | cons y tl' =>
        refine ⟨t ++ ',' :: printListSep printService (y :: tl'), ?_⟩
        show printService x ++ ',' :: printListSep printService (y :: tl') = _
        rw [ht]
        rfl
    obtain ⟨u, hu⟩ := hhead
    show parseServicesArr ('[' :: ((printListSep printService (x :: tl) ++ [']']) ++ rest)) = _
    rw [hu]
    show parseServicesArr ('[' :: '\x7b' :: ((u ++ [']']) ++ rest)) = _
    rw [parseServicesArr]
    rw [if_pos rfl]
    rw [if_neg (by decide)]
    rw [List.append_assoc, List.singleton_append]
    rw [show ('\x7b' :: (u ++ ']' :: rest)) =
      (printListSep printService (x :: tl) ++ ']' :: rest) from by rw [hu]; rfl]
    apply parseServicesItems_print (x :: tl) _ rest (by simp)
    have h1 := printListSep_length_ge printService
      (fun z => (printService_head z).elim (fun t ht => ⟨'\x7b', t, ht⟩)) (x :: tl)
    simp only [List.length_append, List.length_cons] at h1 ⊢
    omega

theorem parseMessageVal_print (m : Message) (rest : List Char) :
    parseMessageVal (printMessage m ++ rest) = some (m, rest) := by
  obtain ⟨ty, svcs⟩ := m
  unfold parseMessageVal printMessage
  cases svcs with
  | nil =>
    simp only [List.isEmpty_nil, if_pos]
    simp only [kt_type, printJString, List.cons_append, List.append_assoc,
      List.nil_append, List.singleton_append]
    simp only [expectTok, reduceIte]
    rw [parseJString_print']
    simp only [reduceIte]
  | cons sv tl =>
    simp only [List.isEmpty_cons, if_neg, Bool.false_eq_true]
    simp only [kt_type, kt_services, printJString, List.cons_append, List.append_assoc,
      List.nil_append, List.singleton_append]
    simp only [expectTok, reduceIte]
    rw [parseJString_print']
    simp only [List.cons_append, List.append_assoc, List.singleton_append]
    simp only [expectTok, reduceIte]
    rw [parseServicesArr_print]
    rfl

theorem jsonUnmarshalMessage_print (m : Message) :
    jsonUnmarshalMessage (printMessage m) = some m := by
  unfold jsonUnmarshalMessage
  rw [show printMessage m = printMessage m ++ [] from (List.append_nil _).symm]
  rw [parseMessageVal_print]

theorem mapToNat_ofNat (l : List Char) : (l.map Char.toNat).map Char.ofNat = l := by
  rw [List.map_map]
  have h : (Char.ofNat ∘ Char.toNat) = id := funext Char.ofNat_toNat
  rw [h, List.map_id]

/-- C6 amended: every valid `Message` whose JSON encoding fits the
10 MiB frame limit survives the encode/decode roundtrip structurally
unchanged (including the omitted empty services list). -/
theorem c6_roundtrip (m : Message) (hval : m.Validate = true)
    (hlen : (printMessage m).length ≤ MaxMessageSize) :
    SendMessage m =
      .ok (be32 (printMessage m).length ++ (printMessage m).map Char.toNat) ∧
    ReceiveMessage (be32 (printMessage m).length ++
        (printMessage m).map Char.toNat) = (.ok m, []) := by
  have hlen' : (printMessage m).length ≤ 10485760 := hlen
  have hlt : (printMessage m).length < 2 ^ 32 := by omega
  constructor
  · unfold SendMessage
    rw [if_neg (by simp [hval])]
    dsimp only
    rw [List.length_map, Nat.mod_eq_of_lt hlt]
  · unfold ReceiveMessage
    rw [if_neg (by simp [be32])]
    have ht : (be32 (printMessage m).length ++
        (printMessage m).map Char.toNat).take 4 = be32 (printMessage m).length := by
      simpa [be32_length] using
        List.take_left (be32 (printMessage m).length) ((printMessage m).map Char.toNat)
    have hd : (be32 (printMessage m).length ++
        (printMessage m).map Char.toNat).drop 4 = (printMessage m).map Char.toNat := by
      simpa [be32_length] using
        List.drop_left (be32 (printMessage m).length) ((printMessage m).map Char.toNat)
    rw [ht, hd, be32val_be32 _ hlt]
    rw [if_neg (by simp only [MaxMessageSize, gt_iff_lt, not_lt]; omega)]
    rw [if_neg (by rw [List.length_map]; omega)]
    have hlm : (printMessage m).length = ((printMessage m).map Char.toNat).length :=
      (List.length_map _ _).symm
    rw [hlm, List.take_length, mapToNat_ofNat, jsonUnmarshalMessage_print]
    dsimp only
    rw [if_pos hval]
    rw [List.drop_length]

theorem c6_witness :
    (⟨"heartbeat", []⟩ : Message).Validate = true ∧
    (printMessage ⟨"heartbeat", []⟩).length ≤ MaxMessageSize ∧
    ReceiveMessage (be32 (printMessage ⟨"heartbeat", []⟩).length ++
        (printMessage ⟨"heartbeat", []⟩).map Char.toNat) =
      (.ok ⟨"heartbeat", []⟩, []) :=
  ⟨by decide, by decide,
    (c6_roundtrip ⟨"heartbeat", []⟩ (by decide) (by decide)).2⟩

/-- Message of the C6 counterexample: valid, but its payload is one
byte over the 10 MiB frame limit. -/
def bigN : Nat := 10485761

def bigName : String := String.mk (List.replicate bigN 'a')

def bigSvc : ExposedService := ⟨bigName, "n", "web", [⟨80, 0, "tcp"⟩], "t", ""⟩

def bigMsg : Message := ⟨"service_update", [bigSvc]⟩

theorem jsonEscape_of_plain (l : List Char)
    (h : ∀ c ∈ l, ¬(c = '"' ∨ c = '\\')) : jsonEscape l = l := by
  induction l with
  | nil => rfl
  | cons c cs ih =>
    show jsonEscChar c ++ jsonEscape cs = c :: cs
    have hc := h c (List.mem_cons_self _ _)
    rw [not_or] at hc
    rw [show jsonEscChar c = [c] from by simp [jsonEscChar, hc.1, hc.2]]
    rw [ih (fun x hx => h x (List.mem_cons_of_mem _ hx))]
    rfl

theorem printMessage_shape_len (s : String) :
    (printMessage ⟨"service_update", [⟨s, "n", "web", [⟨80, 0, "tcp"⟩], "t", ""⟩]⟩).length
      = (jsonEscape s.data).length + 168 := by
  simp only [printMessage, printService, printPortMapping, printArr, printListSep,
    keyToken, printJString, List.isEmpty_cons, Bool.false_eq_true, if_false, reduceIte,
    List.cons_append, List.append_assoc, List.nil_append, List.singleton_append,
    List.length_append, List.length_cons, List.length_nil,
    show (jsonEscape ['t', 'y', 'p', 'e']).length = 4 from rfl,
    show (jsonEscape ['s', 'e', 'r', 'v', 'i', 'c', 'e', '_', 'u', 'p', 'd', 'a', 't', 'e']).length = 14 from rfl,
    show (jsonEscape ['s', 'e', 'r', 'v', 'i', 'c', 'e', 's']).length = 8 from rfl,
    show (jsonEscape ['n', 'a', 'm', 'e']).length = 4 from rfl,
    show (jsonEscape ['n', 'a', 'm', 'e', 's', 'p', 'a', 'c', 'e']).length = 9 from rfl,
    show (jsonEscape ['n']).length = 1 from rfl,
    show (jsonEscape ['s', 'u', 'b', 'd', 'o', 'm', 'a', 'i', 'n']).length = 9 from rfl,
    show (jsonEscape ['w', 'e', 'b']).length = 3 from rfl,
    show (jsonEscape ['p', 'o', 'r', 't', 's']).length = 5 from rfl,
    show (jsonEscape ['p', 'o', 'r', 't']).length = 4 from rfl,
    show (jsonEscape ['t', 'a', 'r', 'g', 'e', 't', '_', 'p', 'o', 'r', 't']).length = 11 from rfl,
    show (jsonEscape ['p', 'r', 'o', 't', 'o', 'c', 'o', 'l']).length = 8 from rfl,
    show (jsonEscape ['t', 'c', 'p']).length = 3 from rfl,
    show (jsonEscape ['t', 'a', 'r', 'g', 'e', 't', '_', 'i', 'p']).length = 9 from rfl,
    show (jsonEscape ['t']).length = 1 from rfl,
    show (jsonEscape ['n', 'o', 'd', 'e', '_', 'i', 'p']).length = 7 from rfl,
    show (jsonEscape []).length = 0 from rfl,
    show (printJInt 80).length = 2 from rfl,
    show (printJInt 0).length = 1 from rfl]
  omega

theorem bigMsg_print_len : (printMessage bigMsg).length = 10485929 := by
  have h1 : (printMessage bigMsg).length = (jsonEscape bigName.data).length + 168 :=
    printMessage_shape_len bigName
  rw [h1]
  rw [show bigName.data = List.replicate bigN 'a' from rfl]
  rw [jsonEscape_of_plain _ (by
    intro c hc
    rw [List.eq_of_mem_replicate hc]
    decide)]
  rw [List.length_replicate]
  rfl

theorem bigMsg_valid : bigMsg.Validate = true := by
  have hname : ¬ bigSvc.name = "" := by
    intro h
    have h2 : List.replicate bigN 'a' = [] := congrArg String.data h
    have h3 : bigN = 0 := by simpa using h2
    exact absurd h3 (by decide)
  have hsvc : bigSvc.Validate = true := by
    unfold ExposedService.Validate
    rw [if_neg hname]
    rw [if_neg (show ¬bigSvc.nspace = "" by decide)]
    rw [if_neg (show ¬(!ValidateSubdomain bigSvc.subdomain) = true by decide)]
    rw [if_neg (show ¬bigSvc.ports.isEmpty = true by decide)]
    rw [if_neg (show ¬(!bigSvc.ports.all PortMapping.Validate) = true by decide)]
    rw [if_neg (show ¬bigSvc.targetIP = "" by decide)]
  unfold Message.Validate
  rw [if_neg (by decide)]
  rw [if_pos (by decide)]
  show (bigSvc.Validate && List.all [] ExposedService.Validate) = true
  rw [hsvc]
  rfl

/-- C6 as stated is false: a `Message` that passes validation but
whose JSON payload exceeds 10 MiB is happily encoded by
`SendMessage`, yet `ReceiveMessage` rejects the frame as too large
instead of returning the message. -/
theorem c6_counterexample :
    bigMsg.Validate = true ∧
    MaxMessageSize < (printMessage bigMsg).length ∧
    SendMessage bigMsg =
      .ok (be32 (printMessage bigMsg).length ++ (printMessage bigMsg).map Char.toNat) ∧
    (ReceiveMessage (be32 (printMessage bigMsg).length ++
        (printMessage bigMsg).map Char.toNat)).1 =
      .error (.tooLarge (printMessage bigMsg).length) := by
  have hlen := bigMsg_print_len
  have hval := bigMsg_valid
  have hlt : (printMessage bigMsg).length < 2 ^ 32 := by omega
  refine ⟨hval, by rw [hlen]; decide, ?_, ?_⟩
  · unfold SendMessage
    rw [if_neg (by simp [hval])]
    dsimp only
    rw [List.length_map, Nat.mod_eq_of_lt hlt]
  · generalize (printMessage bigMsg).map Char.toNat = DATA
    rw [hlen]
    unfold ReceiveMessage
    have h4 : ¬(be32 10485929 ++ DATA).length < 4 := by
      rw [List.length_append, be32_length]
      omega
    rw [if_neg h4]
    have ht : (be32 10485929 ++ DATA).take 4 = be32 10485929 := by
      have h := List.take_left (be32 10485929) DATA
      rw [be32_length] at h
      exact h
    have hd : (be32 10485929 ++ DATA).drop 4 = DATA := by
      have h := List.drop_left (be32 10485929) DATA
      rw [be32_length] at h
      exact h
    rw [ht, hd, be32val_be32 10485929 (by norm_num)]
    rw [if_pos (show 10485929 > MaxMessageSize by decide)]

end KExp
